import Mathlib

/-! Shallow embedding of the enrichment pipeline in src/app.py.

A pandas DataFrame loaded with dtype=str is modelled as a `Frame`: a list
of column names plus rows of cells, where a cell is `Option String` and
`none` stands for a missing value (NaN).  pandas operations that raise
KeyError on a missing column label are modelled with `Option`/`Except`.
fuzzywuzzy similarity scorers are abstracted as functions
`String → String → Nat` returning a 0-100 score (the source is itself
parametric in `process.default_scorer`); `process.extractOne` is embedded
as a left-to-right maximum that keeps the first maximal choice, which is
what Python's `max` does. -/

/-- A pandas cell under dtype=str: `none` models NaN. -/
abbrev Cell := Option String

/-- A pandas DataFrame: column labels plus rows of cells. -/
structure Frame where
  cols : List String
  rows : List (List Cell)
deriving DecidableEq

/-- Strip leading and trailing whitespace from a character list. -/
def trimChars (l : List Char) : List Char :=
  ((l.dropWhile Char.isWhitespace).reverse.dropWhile Char.isWhitespace).reverse

/-- Python `s.lower().strip()` as applied by `.str.lower().str.strip()`
(src/app.py lines 52, 69 and 74): case-fold, then trim outer whitespace
(implemented over the character list so that it evaluates inside the
kernel; for the ASCII data of this pipeline it is exactly Python's
lower/strip). -/
def normalizeName (s : String) : String := ⟨trimChars (s.data.map Char.toLower)⟩

/-- First index of a column label in a column list (pandas label lookup);
`none` models a KeyError. -/
def idxOfCol (c : String) : List String → Option Nat
  | [] => none
  | d :: l => if d = c then some 0 else (idxOfCol c l).map (· + 1)

/-- Label lookup on a frame. -/
def colIdx (f : Frame) (c : String) : Option Nat := idxOfCol c f.cols

/-- Cell of a row at position `i`; positions beyond the row read as NaN. -/
def cellAt (r : List Cell) (i : Nat) : Cell := (r[i]?).getD none

/-- Strict code-point lexicographic order on character lists: exactly how
Python compares the `dtype=str` cell values. -/
def charListLt : List Char → List Char → Bool
  | [], [] => false
  | [], _ :: _ => true
  | _ :: _, [] => false
  | a :: as, b :: bs =>
    if a.toNat < b.toNat then true
    else if b.toNat < a.toNat then false
    else charListLt as bs

/-- Python's `a < b` on strings. -/
def strLt (a b : String) : Bool := charListLt a.data b.data

/-- Three-way comparison of strings, Python style. -/
def cmpStr (a b : String) : Ordering :=
  if strLt a b then .lt else if strLt b a then .gt else .eq

/-- Comparison of two cells for one sort key of `sort_values`: NaN is
placed last regardless of direction (`na_position='last'`), otherwise the
strings are compared, reversed when `asc` is false. -/
def cellCmp (asc : Bool) : Cell → Cell → Ordering
  | none, none => .eq
  | none, some _ => .gt
  | some _, none => .lt
  | some a, some b => if asc then cmpStr a b else cmpStr b a

/-- Lexicographic comparison of two rows over a list of
(column index, ascending) sort keys. -/
def rowCmp (keys : List (Nat × Bool)) (r s : List Cell) : Ordering :=
  match keys with
  | [] => .eq
  | (i, asc) :: ks =>
    match cellCmp asc (cellAt r i) (cellAt s i) with
    | .eq => rowCmp ks r s
    | o => o

/-- Strict "row r sorts before row s" test. -/
def rowLtB (keys : List (Nat × Bool)) (r s : List Cell) : Bool :=
  rowCmp keys r s == .lt

/-- Insert into a sorted list, before the first element that is not
strictly smaller; with `isortRows` this is a stable sort, matching the
stable lexsort pandas uses for a multi-key `sort_values`. -/
def insertSorted {α : Type} (lt : α → α → Bool) (x : α) : List α → List α
  | [] => [x]
  | b :: l => if lt b x then b :: insertSorted lt x l else x :: b :: l

/-- Stable insertion sort. -/
def isortRows {α : Type} (lt : α → α → Bool) : List α → List α
  | [] => []
  | x :: l => insertSorted lt x (isortRows lt l)

/-- `df.sort_values(by=bys, ascending=asc)` (na_position='last' default);
a missing sort column raises KeyError. -/
def sortFrame (f : Frame) (bys : List String) (asc : List Bool) : Except String Frame :=
  match bys.mapM (colIdx f) with
  | none => .error "KeyError"
  | some idxs => .ok ⟨f.cols, isortRows (rowLtB (idxs.zip asc)) f.rows⟩

/-- Keep the first row of every key class, in order: the recursion behind
`drop_duplicates(keep='first')`.  `seen` is the set of keys already kept.
pandas treats NaN keys as equal to each other, which the plain equality of
`Option String` keys reproduces. -/
def dedupFirst {α κ : Type} [DecidableEq κ] (key : α → κ) : List α → List κ → List α
  | [], _ => []
  | x :: l, seen =>
    if key x ∈ seen then dedupFirst key l seen
    else x :: dedupFirst key l (key x :: seen)

/-- `df.drop_duplicates(subset=subset, keep='first')`; a subset label not
among the columns raises KeyError. -/
def dropDuplicates (f : Frame) (subset : List String) : Except String Frame :=
  match subset.mapM (colIdx f) with
  | none => .error "KeyError"
  | some idxs => .ok ⟨f.cols, dedupFirst (fun r => idxs.map (cellAt r)) f.rows []⟩

/-- Lines 133-139 of src/app.py: build `sort_cols = ["ein"]` plus
`"revenue_amt"` when that column exists, and sort ascending on "ein" and
descending on the rest; the `try/except: pass` keeps the frame unchanged
when the sort raises. -/
def dedupSortStage (df : Frame) : Frame :=
  let sortCols := "ein" :: (if "revenue_amt" ∈ df.cols then ["revenue_amt"] else [])
  let asc := true :: List.replicate (sortCols.length - 1) false
  ((sortFrame df sortCols asc).toOption).getD df

/-- Lines 132-142 of src/app.py: sort (best effort), then drop duplicate
"ein" keys, then drop duplicate name keys, each keeping the first row. -/
def deduplicate (df : Frame) (orgNameColumn : String) : Except String Frame := do
  let d1 ← dropDuplicates (dedupSortStage df) ["ein"]
  dropDuplicates d1 [orgNameColumn]

/-- Rename one column label (`df.rename(columns={a: b})`). -/
def renameCol (f : Frame) (a b : String) : Frame :=
  ⟨f.cols.map (fun c => if c = a then b else c), f.rows⟩

/-- Overwrite one column in place (line 74,
`bmf_df[c] = bmf_df[c].str...`); reading a missing column raises. -/
def mapColO (f : Frame) (c : String) (g : Cell → Cell) : Option Frame := do
  let i ← colIdx f c
  some ⟨f.cols, f.rows.map (fun r => r.set i (g (cellAt r i)))⟩

/-- Column projection `df[[c1, ..., cn]]`. -/
def selectCols (f : Frame) (cs : List String) : Option Frame := do
  let idxs ← cs.mapM (colIdx f)
  some ⟨cs, f.rows.map (fun r => idxs.map (cellAt r))⟩

/-- `left.merge(right, left_on=lk, right_on=rk, how='left')` for frames
with disjoint column labels apart from the keys: one output row per
matching pair of rows, in left-frame order and, per left row, right-frame
order; a left row with no match yields a single row padded with NaN.
pandas matches NaN join keys with each other, as plain cell equality
does. -/
def mergeLeftOn (l r : Frame) (lk rk : String) : Option Frame := do
  let li ← colIdx l lk
  let ri ← colIdx r rk
  some ⟨l.cols ++ r.cols,
    l.rows.flatMap (fun lr =>
      match r.rows.filter (fun rr => cellAt rr ri = cellAt lr li) with
      | [] => [lr ++ List.replicate r.cols.length (none : Cell)]
      | ms => ms.map (fun rr => lr ++ rr))⟩

/-- The registry attribute columns copied by both matchers
(lines 76 and 89-93). -/
def bmfAttrCols : List String := ["ein", "ntee_cd", "revenue_amt", "income_amt", "asset_amt"]

/-- Lines 73-80 of src/app.py, `match_eins_exact`: normalize the registry
name column IN PLACE, then left-merge the upload with a six-column
projection of the (now mutated) registry.  Returns the merged frame
together with the mutated registry frame, making the in-place write on
`bmf_df` explicit. -/
def match_eins_exact (uploaded : Frame) (orgNameColumn : String) (bmf : Frame)
    (bmfNameCol : String) : Option (Frame × Frame) := do
  let bmf' ← mapColO bmf bmfNameCol (Option.map normalizeName)
  let sel ← selectCols bmf' (bmfNameCol :: bmfAttrCols)
  let merged ← mergeLeftOn uploaded sel orgNameColumn bmfNameCol
  some (merged, bmf')

/-- `process.extractOne` body: scan the choices keeping the first
maximal score (Python `max` keeps the first maximum). -/
def extractAcc (scorer : String → String → Nat) (q : String) :
    List String → String × Nat → String × Nat
  | [], best => best
  | c :: cs, (m, s) =>
    if s < scorer q c then extractAcc scorer q cs (c, scorer q c)
    else extractAcc scorer q cs (m, s)

/-- `process.extractOne(q, choices)`: `none` on an empty choice list. -/
def extractOneScored (scorer : String → String → Nat) (q : String)
    (choices : List String) : Option (String × Nat) :=
  match choices with
  | [] => none
  | c :: cs => some (extractAcc scorer q cs (c, scorer q c))

/-- `bmf_df[bmf_name_col].dropna().unique()` (line 85): the non-NaN cells
of the name column, first occurrences only, in order. -/
def bmfChoices (bmf : Frame) (bni : Nat) : List String :=
  dedupFirst (fun s => s) ((bmf.rows.map (fun r => cellAt r bni)).filterMap id) []

/-- pandas `Series.get(label)`: `none` when the label is missing. -/
def seriesGet (f : Frame) (r : List Cell) (c : String) : Cell :=
  match colIdx f c with
  | some i => cellAt r i
  | none => none

/-- Lines 84-95, `get_best_ein`: score the query against the distinct
registry names; on a best score ≥ 85 copy the attribute fields of the
FIRST registry row bearing the winning name (`.iloc[0]`), otherwise
return all-NaN fields.  `none` models the uncaught exceptions of the
source (unpacking `extractOne`'s None on an empty choice list, or
`.iloc[0]` on an empty selection). -/
def get_best_ein (scorer : String → String → Nat) (bmf : Frame) (bni : Nat)
    (orgName : String) : Option (List (String × Cell)) :=
  match extractOneScored scorer orgName (bmfChoices bmf bni) with
  | none => none
  | some (m, score) =>
    if 85 ≤ score then
      match bmf.rows.find? (fun r => cellAt r bni = some m) with
      | some matchedRow => some (bmfAttrCols.map (fun c => (c, seriesGet bmf matchedRow c)))
      | none => none
    else some (bmfAttrCols.map (fun c => (c, (none : Cell))))

/-- The identifier copied by an accepted fuzzy match: the "ein" field of
the first registry row whose name cell equals the winning choice. -/
def fuzzyWinnerEin (bmf : Frame) (bni : Nat) (m : String) : Cell :=
  match bmf.rows.find? (fun r => cellAt r bni = some m) with
  | some matchedRow => seriesGet bmf matchedRow "ein"
  | none => none

/-- The masked column assignment of lines 100-101: rebuild a row, taking
updated values for the updated column labels and original cells
elsewhere. -/
def setRowCols (cols : List String) (updates : List (String × Cell))
    (r : List Cell) : List Cell :=
  (cols.zip r).map (fun p =>
    match updates.lookup p.1 with
    | some v => v
    | none => p.2)

/-- Lines 83-102, `fuzzy_match_unmatched`: rows whose "ein" cell is NaN
(`no_ein_mask`) get the attribute fields produced by `get_best_ein` for
their (normalized) name; other rows are untouched.  A NaN name is
stringified to "nan" by fuzzywuzzy's preprocessor, hence the `getD`.
`none` propagates the source's uncaught exceptions. -/
def fuzzy_match_unmatched (scorer : String → String → Nat) (uploaded : Frame)
    (orgNameColumn : String) (bmf : Frame) (bmfNameCol : String) : Option Frame := do
  let ei ← colIdx uploaded "ein"
  let oi ← colIdx uploaded orgNameColumn
  let bni ← colIdx bmf bmfNameCol
  let newRows ← uploaded.rows.mapM (fun r =>
    if cellAt r ei = none then
      (get_best_ein scorer bmf bni ((cellAt r oi).getD "nan")).map
        (fun upd => setRowCols uploaded.cols upd r)
    else some r)
  some ⟨uploaded.cols, newRows⟩

/-- Lines 48-62, `find_best_column_match`: empty column set gives None;
otherwise try the keywords in order, returning the original-cased column
whose normalized form is `extractOne`'s best match for the first keyword
scoring ≥ 60; if no keyword clears the threshold, fall back to the first
column. -/
def detectKeywords : List String :=
  ["company", "organization", "name", "nonprofit", "business", "entity"]

/-- The body of the keyword loop (lines 54-59): score one keyword against
the normalized column names; on a best score ≥ 60 return the
original-cased column at the first index of the winning normalized name
(`columns[normalized.index(match)]`), else move on to the next keyword. -/
def keywordHit (scorer : String → String → Nat) (columns normalized : List String)
    (kw : String) : Option String :=
  match extractOneScored scorer kw normalized with
  | some (m, score) =>
    if 60 ≤ score then some ((columns[(idxOfCol m normalized).getD 0]?).getD "")
    else none
  | none => none

def find_best_column_match (scorer : String → String → Nat)
    (columns : List String) : Option String :=
  if columns.isEmpty then none
  else
    let normalized := columns.map normalizeName
    match detectKeywords.findSome? (keywordHit scorer columns normalized) with
    | some c => some c
    | none => columns.head?

/-- One officer entry of the remote service's response; each field is
individually optional.  Values are carried as the strings Python's
f-string interpolation renders (a JSON number 500000 renders "500000"). -/
structure Officer where
  name : Option String
  title : Option String
  compensation : Option String
deriving DecidableEq

/-- The `organization` object of a response body. -/
structure OrgData where
  employee_count : Option String
  website : Option String
  mission : Option String
  officers : List Officer
deriving DecidableEq

/-- A parsed response body (`data`); `organization` may be absent, in
which case `data.get("organization", {})` yields an empty object. -/
structure PropublicaBody where
  organization : Option OrgData
deriving DecidableEq

/-- What one HTTP request can come back as: a transport-level error
(the bare `except` path), or a status code with a body; `none` for the
body models a body `await response.json()` fails to parse. -/
inductive FetchOutcome where
  | transportError : FetchOutcome
  | response (status : Nat) (body : Option PropublicaBody) : FetchOutcome

/-- One enrichment record as built on lines 112-122. -/
structure EnrichmentRecord where
  ein : String
  employeeCount : String
  website : String
  mission : String
  filingLink : String
  keyEmployees : String
deriving DecidableEq

/-- The f-string of line 119 for one officer. -/
def officerToken (o : Officer) : String :=
  o.name.getD "N/A" ++ " (" ++ o.title.getD "N/A" ++ ") - $" ++ o.compensation.getD "N/A"

/-- Lines 118-121: join the officer tokens with "; "; Python's `or`
replaces an empty join (empty officer list) with "N/A". -/
def joinOfficers (os : List Officer) : String :=
  let joined := String.intercalate "; " (os.map officerToken)
  if joined = "" then "N/A" else joined

/-- Lines 105-124, `fetch_propublica_async`, as a pure function of the
request's outcome: any transport error, non-200 status, or unparsable
body yields `none`; a 200 response yields a record whose optional fields
default to "N/A" and whose filing link is derived from the identifier. -/
def fetch_propublica_async (ein : String) (out : FetchOutcome) : Option EnrichmentRecord :=
  match out with
  | .transportError => none
  | .response status body =>
    if status = 200 then
      match body with
      | none => none
      | some data =>
        let orgData := data.organization.getD ⟨none, none, none, []⟩
        some { ein := ein
             , employeeCount := orgData.employee_count.getD "N/A"
             , website := orgData.website.getD "N/A"
             , mission := orgData.mission.getD "N/A"
             , filingLink := "https://projects.propublica.org/nonprofits/organizations/" ++ ein ++ "/full"
             , keyEmployees := joinOfficers orgData.officers }
    else none

/-- Lines 126-129, `fetch_all_propublica`: one task per truthy identifier
(Python's `if ein` drops empty strings), gathered in task order; the
outcome of each request is supplied by the environment `outcomes`. -/
def fetch_all_propublica (outcomes : String → FetchOutcome)
    (ein_list : List String) : List (Option EnrichmentRecord) :=
  (ein_list.filter (fun e => e ≠ "")).map
    (fun e => fetch_propublica_async e (outcomes e))

/-- Column labels of the frame built from the fetched dicts (line 171). -/
def proColumns : List String :=
  ["EIN", "Number of Employees", "Website", "Mission Statement", "IRS 990 Filing", "Key Employees"]

/-- `pd.DataFrame([row for row in results if row])`. -/
def proFrame (rs : List EnrichmentRecord) : Frame :=
  ⟨proColumns, rs.map (fun r =>
    [some r.ein, some r.employeeCount, some r.website, some r.mission,
     some r.filingLink, some r.keyEmployees])⟩

/-- `left.merge(right, on=k, how='left')`: like `mergeLeftOn` but the
shared key column appears once. -/
def mergeOnLeft (l r : Frame) (k : String) : Option Frame := do
  let li ← colIdx l k
  let ri ← colIdx r k
  some ⟨l.cols ++ r.cols.eraseIdx ri,
    l.rows.flatMap (fun lr =>
      match r.rows.filter (fun rr => cellAt rr ri = cellAt lr li) with
      | [] => [lr ++ List.replicate (r.cols.length - 1) (none : Cell)]
      | ms => ms.map (fun rr => lr ++ rr.eraseIdx ri))⟩

/-- Lines 166-176 of src/app.py, the tail of the "Enrich Now" handler:
rename "ein" to "EIN", merge the enrichment frame when any fetch
succeeded, then deduplicate.  The enrichment results are passed in as the
already-gathered per-request outcomes. -/
def pipelineStep3 (enriched : Frame) (orgNameColumn : String)
    (results : List (Option EnrichmentRecord)) : Except String Frame := do
  let renamed := renameCol enriched "ein" "EIN"
  let pro := results.filterMap id
  let merged ←
    if pro.isEmpty then pure renamed
    else
      match mergeOnLeft renamed (proFrame pro) "EIN" with
      | some m => pure m
      | none => Except.error "KeyError"
  deduplicate merged orgNameColumn

/-- Cell order used to state "largest revenue": NaN below every string,
strings compared lexicographically (which is how the dtype=str frame
actually sorts them). -/
def revCellLe : Cell → Cell → Bool
  | none, _ => true
  | some _, none => false
  | some x, some y => !(strLt y x)

/-! Concrete inputs used by counterexamples and witnesses. -/

/-- One uploaded record whose (normalized) name is "a". -/
def exC1upload : Frame := ⟨["org"], [[some "a"]]⟩

/-- A registry in which two records share the normalized name "a", with
revenues 5 and 7. -/
def exC1bmf : Frame :=
  ⟨["name", "ein", "ntee_cd", "revenue_amt", "income_amt", "asset_amt"],
   [[some "a", some "e1", none, some "5", none, none],
    [some "a", some "e2", none, some "7", none, none]]⟩

/-- A frame holding one identifier group with revenues 9 and 10. -/
def exC5frame : Frame :=
  ⟨["ein", "revenue_amt", "name"],
   [[some "1", some "9", some "a"], [some "1", some "10", some "b"]]⟩

/-- A frame with no duplicate keys at all, identifiers out of sorted
order. -/
def exC6frame : Frame :=
  ⟨["ein", "revenue_amt", "name"],
   [[some "2", some "5", some "x"], [some "1", some "4", some "y"]]⟩

/-- Upload and registry for the mutation counterexample: the registry
name cell "A " is not normalized. -/
def exC8upload : Frame := ⟨["org"], [[some "a"]]⟩

def exC8bmf : Frame :=
  ⟨["name", "ein", "ntee_cd", "revenue_amt", "income_amt", "asset_amt"],
   [[some "A ", some "1", none, none, none, none]]⟩

/-- The registry frame after `match_eins_exact` ran: the name cell was
overwritten with its normalized form. -/
def exC8bmfMut : Frame :=
  ⟨["name", "ein", "ntee_cd", "revenue_amt", "income_amt", "asset_amt"],
   [[some "a", some "1", none, none, none, none]]⟩

/-- A post-match enriched frame as it reaches Step 3 of the pipeline
(its identifier column is still called "ein"). -/
def exC4enriched : Frame :=
  ⟨["org", "name", "ein", "ntee_cd", "revenue_amt", "income_amt", "asset_amt"],
   [[some "a", some "a", some "1", none, some "5", none, none]]⟩

/-- A pre-deduplication frame with a duplicated identifier, two rows with
a missing identifier, and a duplicated name. -/
def exDedupFrame : Frame :=
  ⟨["ein", "revenue_amt", "name"],
   [[some "1", some "5", some "x"], [some "1", some "7", some "y"],
    [none, some "3", some "x"], [none, none, some "z"]]⟩

/-- A scorer giving 100 to equal strings and 40 otherwise. -/
def exScorer : String → String → Nat := fun a b => if a = b then 100 else 40

/-- A scorer under every acceptance threshold. -/
def exScorerLow : String → String → Nat := fun _ _ => 40

/-- An enriched frame with one exact-matched row and one unmatched row. -/
def exC3upload : Frame :=
  ⟨["org", "ein", "ntee_cd", "revenue_amt", "income_amt", "asset_amt"],
   [[some "red cross", none, none, none, none, none],
    [some "blue", some "9", none, none, none, none]]⟩

def exC3bmf : Frame :=
  ⟨["name", "ein", "ntee_cd", "revenue_amt", "income_amt", "asset_amt"],
   [[some "red cross", some "131624102", some "X", some "5", none, none]]⟩

/-- The officer of the concrete enrichment scenario. -/
def exC7body : PropublicaBody :=
  ⟨some ⟨none, none, none, [⟨some "Jane Doe", some "CEO", some "500000"⟩]⟩⟩

/-- The merged frame `match_eins_exact` yields on `exC1upload`/`exC1bmf`:
two rows for the one uploaded record. -/
def exC1merged : Frame :=
  ⟨["org", "name", "ein", "ntee_cd", "revenue_amt", "income_amt", "asset_amt"],
   [[some "a", some "a", some "e1", none, some "5", none, none],
    [some "a", some "a", some "e2", none, some "7", none, none]]⟩

/-- The merged frame `match_eins_exact` yields on `exC8upload`/`exC8bmf`. -/
def exC8merged : Frame :=
  ⟨["org", "name", "ein", "ntee_cd", "revenue_amt", "income_amt", "asset_amt"],
   [[some "a", some "a", some "1", none, none, none, none]]⟩

/-- The frame the Fuzzy Fallback Matcher yields on `exC3upload` under
`exScorer`: the unresolved row received identifier 131624102, the
already-resolved row is untouched. -/
def exC3out : Frame :=
  ⟨["org", "ein", "ntee_cd", "revenue_amt", "income_amt", "asset_amt"],
   [[some "red cross", some "131624102", some "X", some "5", none, none],
    [some "blue", some "9", none, none, none, none]]⟩

/-- Output of `deduplicate` on `exC6frame` (both rows survive, in sorted
order, not input order). -/
def exC6out : Frame :=
  ⟨["ein", "revenue_amt", "name"],
   [[some "1", some "4", some "y"], [some "2", some "5", some "x"]]⟩

/-- Output of `deduplicate` on `exDedupFrame`. -/
def exDedupOut : Frame :=
  ⟨["ein", "revenue_amt", "name"],
   [[some "1", some "7", some "y"], [none, some "3", some "x"]]⟩

/-! Lemmas about the embedded pandas operations. -/

theorem idxOfCol_some_mem {c : String} : ∀ {l : List String} {i : Nat},
    idxOfCol c l = some i → c ∈ l := by
  intro l
  induction l with
  | nil => intro i h; simp [idxOfCol] at h
  | cons d t ih =>
    intro i h
    simp only [idxOfCol] at h
    by_cases hd : d = c
    · exact hd ▸ List.mem_cons_self d t
    · rw [if_neg hd] at h
      cases hm : idxOfCol c t with
      | none => rw [hm] at h; simp at h
      | some j => exact List.mem_cons_of_mem d (ih hm)

theorem dedupFirst_sublist {α κ : Type} [DecidableEq κ] (key : α → κ) (l : List α) :
    ∀ seen : List κ, (dedupFirst key l seen).Sublist l := by
  induction l with
  | nil => intro seen; simp [dedupFirst]
  | cons x t ih =>
    intro seen
    simp only [dedupFirst]
    by_cases h : key x ∈ seen
    · rw [if_pos h]; exact (ih seen).cons _
    · rw [if_neg h]; exact (ih _).cons₂ _

theorem dedupFirst_not_mem_seen {α κ : Type} [DecidableEq κ] (key : α → κ) (l : List α) :
    ∀ (seen : List κ) (x : α), x ∈ dedupFirst key l seen → key x ∉ seen := by
  induction l with
  | nil => intro seen x hx; simp [dedupFirst] at hx
  | cons a t ih =>
    intro seen x hx
    simp only [dedupFirst] at hx
    by_cases h : key a ∈ seen
    · rw [if_pos h] at hx; exact ih seen x hx
    · rw [if_neg h] at hx
      rcases List.mem_cons.mp hx with rfl | hx'
      · exact h
      · intro hmem
        exact ih _ x hx' (List.mem_cons_of_mem _ hmem)

theorem dedupFirst_pairwise {α κ : Type} [DecidableEq κ] (key : α → κ) (l : List α) :
    ∀ seen : List κ, (dedupFirst key l seen).Pairwise (fun a b => key a ≠ key b) := by
  induction l with
  | nil => intro seen; simp [dedupFirst]
  | cons a t ih =>
    intro seen
    simp only [dedupFirst]
    by_cases h : key a ∈ seen
    · rw [if_pos h]; exact ih seen
    · rw [if_neg h]
      refine List.Pairwise.cons ?_ (ih _)
      intro b hb he
      exact dedupFirst_not_mem_seen key t _ b hb (by rw [← he]; exact List.mem_cons_self _ _)

theorem dedupFirst_cons {α κ : Type} [DecidableEq κ] (key : α → κ) (a : α) (t : List α)
    (seen : List κ) :
    dedupFirst key (a :: t) seen =
      if key a ∈ seen then dedupFirst key t seen
      else a :: dedupFirst key t (key a :: seen) := rfl

theorem dedupFirst_filter {α κ : Type} [DecidableEq κ] (key : α → κ) (k : κ) (l : List α) :
    ∀ seen : List κ, (dedupFirst key l seen).filter (fun x => key x = k) =
      if k ∈ seen then [] else (l.filter (fun x => key x = k)).take 1 := by
  induction l with
  | nil => intro seen; by_cases hk : k ∈ seen <;> simp [dedupFirst, hk]
  | cons a t ih =>
    intro seen
    rw [dedupFirst_cons]
    by_cases h : key a ∈ seen
    · rw [if_pos h, ih seen]
      by_cases hk : k ∈ seen
      · rw [if_pos hk, if_pos hk]
      · have hak : ¬ (key a = k) := fun he => hk (he ▸ h)
        rw [if_neg hk, if_neg hk, List.filter_cons]
        simp only [decide_eq_true_eq]
        rw [if_neg hak]
    · rw [if_neg h, List.filter_cons, List.filter_cons]
      simp only [decide_eq_true_eq]
      by_cases hak : key a = k
      · rw [if_pos hak, if_pos hak, ih (key a :: seen)]
        have hmem : k ∈ key a :: seen := by rw [← hak]; exact List.mem_cons_self _ _
        rw [if_pos hmem]
        have hk : ¬ k ∈ seen := fun hm => h (by rw [hak]; exact hm)
        rw [if_neg hk]
        rfl
      · rw [if_neg hak, if_neg hak, ih (key a :: seen)]
        by_cases hk : k ∈ seen
        · rw [if_pos (List.mem_cons_of_mem _ hk), if_pos hk]
        · have hnot : ¬ k ∈ key a :: seen := by
            intro hm
            rcases List.mem_cons.mp hm with he | hm'
            · exact hak he.symm
            · exact hk hm'
          rw [if_neg hnot, if_neg hk]

theorem dropDuplicates_ok {f : Frame} {s : List String} {g : Frame}
    (h : dropDuplicates f s = .ok g) : g.cols = f.cols ∧ g.rows.Sublist f.rows := by
  unfold dropDuplicates at h
  split at h
  · exact absurd h (by simp)
  · simp only [Except.ok.injEq] at h
    subst h
    exact ⟨rfl, dedupFirst_sublist _ _ _⟩

theorem dropDuplicates_single_eq (f : Frame) (c : String) (i : Nat)
    (hc : colIdx f c = some i) :
    dropDuplicates f [c] = .ok ⟨f.cols, dedupFirst (fun r => [cellAt r i]) f.rows []⟩ := by
  unfold dropDuplicates
  have hm : [c].mapM (colIdx f) = some [i] := by
    rw [List.mapM_cons, List.mapM_nil, hc]
    rfl
  rw [hm]
  rfl

theorem sortFrame_toOption_getD_cols (f : Frame) (bys : List String) (asc : List Bool) :
    (((sortFrame f bys asc).toOption).getD f).cols = f.cols := by
  unfold sortFrame
  cases bys.mapM (colIdx f) <;> rfl

theorem dedupSortStage_cols (df : Frame) : (dedupSortStage df).cols = df.cols := by
  unfold dedupSortStage
  exact sortFrame_toOption_getD_cols df _ _

theorem dedupSortStage_rows (df : Frame) (ei ri : Nat)
    (hei : colIdx df "ein" = some ei) (hri : colIdx df "revenue_amt" = some ri) :
    (dedupSortStage df).rows = isortRows (rowLtB [(ei, true), (ri, false)]) df.rows := by
  have hmem : "revenue_amt" ∈ df.cols := idxOfCol_some_mem hri
  have h1 : dedupSortStage df =
      ((sortFrame df ["ein", "revenue_amt"] [true, false]).toOption).getD df := by
    unfold dedupSortStage
    rw [if_pos hmem]
    rfl
  have h2 : sortFrame df ["ein", "revenue_amt"] [true, false] =
      .ok ⟨df.cols, isortRows (rowLtB [(ei, true), (ri, false)]) df.rows⟩ := by
    unfold sortFrame
    have hm : ["ein", "revenue_amt"].mapM (colIdx df) = some [ei, ri] := by
      rw [List.mapM_cons, List.mapM_cons, List.mapM_nil, hei, hri]
      rfl
    rw [hm]
    rfl
  rw [h1, h2]
  rfl

theorem deduplicate_eq (df : Frame) (org : String) (ei oi : Nat)
    (hei : colIdx df "ein" = some ei) (hoi : colIdx df org = some oi) :
    deduplicate df org = .ok ⟨df.cols,
      dedupFirst (fun r => [cellAt r oi])
        (dedupFirst (fun r => [cellAt r ei]) (dedupSortStage df).rows []) []⟩ := by
  have h1 : colIdx (dedupSortStage df) "ein" = some ei := by
    show idxOfCol "ein" (dedupSortStage df).cols = some ei
    rw [dedupSortStage_cols]
    exact hei
  have h2 : colIdx (⟨(dedupSortStage df).cols,
      dedupFirst (fun r => [cellAt r ei]) (dedupSortStage df).rows []⟩ : Frame) org = some oi := by
    show idxOfCol org (dedupSortStage df).cols = some oi
    rw [dedupSortStage_cols]
    exact hoi
  calc deduplicate df org
      = dropDuplicates (⟨(dedupSortStage df).cols,
          dedupFirst (fun r => [cellAt r ei]) (dedupSortStage df).rows []⟩ : Frame) [org] := by
        show (dropDuplicates (dedupSortStage df) ["ein"]).bind
            (fun d1 => dropDuplicates d1 [org]) = _
        rw [dropDuplicates_single_eq _ _ _ h1]
        rfl
    _ = .ok ⟨(dedupSortStage df).cols,
          dedupFirst (fun r => [cellAt r oi])
            (dedupFirst (fun r => [cellAt r ei]) (dedupSortStage df).rows []) []⟩ :=
        dropDuplicates_single_eq _ org oi h2
    _ = .ok ⟨df.cols,
          dedupFirst (fun r => [cellAt r oi])
            (dedupFirst (fun r => [cellAt r ei]) (dedupSortStage df).rows []) []⟩ := by
        rw [dedupSortStage_cols]

theorem length_filter_le_one_of_pairwise_ne {α β : Type} [DecidableEq β]
    (g : α → β) (v : β) (l : List α)
    (hp : l.Pairwise (fun a b => g a ≠ g b)) :
    (l.filter (fun x => g x = v)).length ≤ 1 := by
  induction l with
  | nil => simp
  | cons a t ih =>
    rcases List.pairwise_cons.mp hp with ⟨ha, hp'⟩
    rw [List.filter_cons]
    by_cases hv : g a = v
    · simp only [decide_eq_true_eq, if_pos hv]
      have hnil : t.filter (fun x => g x = v) = [] := by
        rw [List.filter_eq_nil_iff]
        intro x hx
        simp only [decide_eq_true_eq]
        intro hxv
        exact ha x hx (by rw [hv, hxv])
      rw [hnil]
      simp
    · simp only [decide_eq_true_eq, if_neg hv]
      exact ih hp'

/-- C2: after `deduplicate` runs (identifier pass first, then name pass,
which is the order its definition applies them in), no two surviving rows
carry the same non-null identifier cell and no two surviving rows carry
the same name cell. -/
theorem deduplicate_unique_keys (df : Frame) (org : String) (ei oi : Nat) (out : Frame)
    (hei : colIdx df "ein" = some ei) (hoi : colIdx df org = some oi)
    (h : deduplicate df org = .ok out) :
    out.rows.Pairwise (fun r1 r2 => ∀ v : String, cellAt r1 ei = some v → cellAt r2 ei ≠ some v) ∧
    out.rows.Pairwise (fun r1 r2 => cellAt r1 oi ≠ cellAt r2 oi) := by
  have he := deduplicate_eq df org ei oi hei hoi
  rw [h] at he
  simp only [Except.ok.injEq] at he
  subst he
  constructor
  · have hinner := dedupFirst_pairwise (fun r => [cellAt r ei]) (dedupSortStage df).rows []
    have hsub := dedupFirst_sublist (fun r => [cellAt r oi])
      (dedupFirst (fun r => [cellAt r ei]) (dedupSortStage df).rows []) []
    have hp := List.Pairwise.sublist hsub hinner
    refine hp.imp ?_
    intro a b hab v hv hv2
    exact hab (by rw [hv, hv2])
  · have houter := dedupFirst_pairwise (fun r => [cellAt r oi])
      (dedupFirst (fun r => [cellAt r ei]) (dedupSortStage df).rows []) []
    refine houter.imp ?_
    intro a b hab he'
    exact hab (by rw [he'])

/-- Witness for C2 on a concrete frame with a duplicated identifier, two
missing identifiers and a duplicated name. -/
theorem deduplicate_unique_keys_witness :
    colIdx exDedupFrame "ein" = some 0 ∧ colIdx exDedupFrame "name" = some 2 ∧
    deduplicate exDedupFrame "name" = .ok exDedupOut ∧
    (exDedupOut.rows.Pairwise
        (fun r1 r2 => ∀ v : String, cellAt r1 0 = some v → cellAt r2 0 ≠ some v) ∧
     exDedupOut.rows.Pairwise (fun r1 r2 => cellAt r1 2 ≠ cellAt r2 2)) :=
  ⟨rfl, rfl, rfl, deduplicate_unique_keys exDedupFrame "name" 0 2 exDedupOut rfl rfl rfl⟩

/-- C10: `drop_duplicates` keys missing identifiers as equal, so at most
one row with a NaN identifier survives `deduplicate` — every other
unmatched record is removed. -/
theorem deduplicate_null_ein_at_most_one (df : Frame) (org : String) (ei oi : Nat) (out : Frame)
    (hei : colIdx df "ein" = some ei) (hoi : colIdx df org = some oi)
    (h : deduplicate df org = .ok out) :
    (out.rows.filter (fun r => cellAt r ei = none)).length ≤ 1 := by
  have he := deduplicate_eq df org ei oi hei hoi
  rw [h] at he
  simp only [Except.ok.injEq] at he
  subst he
  have hinner := dedupFirst_pairwise (fun r => [cellAt r ei]) (dedupSortStage df).rows []
  have hsub := dedupFirst_sublist (fun r => [cellAt r oi])
    (dedupFirst (fun r => [cellAt r ei]) (dedupSortStage df).rows []) []
  have hp : (dedupFirst (fun r => [cellAt r oi])
      (dedupFirst (fun r => [cellAt r ei]) (dedupSortStage df).rows []) []).Pairwise
      (fun a b => cellAt a ei ≠ cellAt b ei) := by
    refine (List.Pairwise.sublist hsub hinner).imp ?_
    intro a b hab he'
    exact hab (by rw [he'])
  exact length_filter_le_one_of_pairwise_ne (fun r => cellAt r ei) none _ hp

/-- Witness for C10: of the two NaN-identifier rows of `exDedupFrame`,
exactly one survives. -/
theorem deduplicate_null_ein_at_most_one_witness :
    colIdx exDedupFrame "ein" = some 0 ∧ colIdx exDedupFrame "name" = some 2 ∧
    deduplicate exDedupFrame "name" = .ok exDedupOut ∧
    (exDedupOut.rows.filter (fun r => cellAt r 0 = none)).length ≤ 1 :=
  ⟨rfl, rfl, rfl, deduplicate_null_ein_at_most_one exDedupFrame "name" 0 2 exDedupOut rfl rfl rfl⟩

/-- C6 (amended): the rows `deduplicate` outputs appear in the order of
its revenue sort (identifier ascending, revenue descending as strings,
missing values last, stable) — the survivors are a subsequence of the
sorted dataset, not of the original input order. -/
theorem deduplicate_output_sorted_order (df : Frame) (org : String) (out : Frame)
    (h : deduplicate df org = .ok out) :
    out.rows.Sublist (dedupSortStage df).rows := by
  cases h1 : dropDuplicates (dedupSortStage df) ["ein"] with
  | error e =>
    have hcontra : deduplicate df org = .error e := by
      show (dropDuplicates (dedupSortStage df) ["ein"]).bind
        (fun d1 => dropDuplicates d1 [org]) = _
      rw [h1]
      rfl
    rw [hcontra] at h
    exact absurd h (by simp)
  | ok d1 =>
    have h2 : dropDuplicates d1 [org] = .ok out := by
      have hstep : deduplicate df org = dropDuplicates d1 [org] := by
        show (dropDuplicates (dedupSortStage df) ["ein"]).bind
          (fun d1 => dropDuplicates d1 [org]) = _
        rw [h1]
        rfl
      rw [← hstep]
      exact h
    exact ((dropDuplicates_ok h2).2).trans ((dropDuplicates_ok h1).2)

/-- Witness for C6's amended statement on `exC6frame`. -/
theorem deduplicate_output_sorted_order_witness :
    deduplicate exC6frame "name" = .ok exC6out ∧
    exC6out.rows.Sublist (dedupSortStage exC6frame).rows :=
  ⟨rfl, deduplicate_output_sorted_order exC6frame "name" exC6out rfl⟩

/-- Counterexample for C6 as stated: `exC6frame` has no duplicate keys at
all, its rows arrive with identifiers "2" then "1", yet the output of
`deduplicate` lists them "1" then "2" — the order of first occurrence
among retained records is not preserved. -/
theorem deduplicate_reorders_counterexample :
    deduplicate exC6frame "name" = .ok exC6out ∧
    exC6out.rows ≠ exC6frame.rows := ⟨rfl, by decide⟩

/-- Counterexample for C5 as stated: both rows of `exC5frame` share the
identifier "1" and carry revenues "9" and "10"; the numerically largest
revenue is 10, but the Deduplicator keeps the row with revenue 9, because
the dtype=str frame sorts revenue strings lexicographically
("9" > "10"). -/
theorem deduplicate_string_revenue_counterexample :
    deduplicate exC5frame "name" =
      .ok ⟨["ein", "revenue_amt", "name"], [[some "1", some "9", some "a"]]⟩ ∧
    strLt "10" "9" = true := ⟨rfl, rfl⟩

/-- Counterexample for C1 as stated: the single uploaded record "a"
matches the two registry records sharing the normalized name "a", and the
Exact Matcher emits BOTH — two output rows for one uploaded record, one
per matching reference record and in reference ingestion order, instead
of selecting the one with the larger revenue. -/
theorem match_eins_exact_duplicate_name_two_rows :
    (match_eins_exact exC1upload "org" exC1bmf "name").map (fun p => p.1.rows) =
      some [[some "a", some "a", some "e1", none, some "5", none, none],
            [some "a", some "a", some "e2", none, some "7", none, none]] := by decide

/-- Counterexample for C8 as stated: running the Exact Matcher on a
registry whose name cell is "A " rewrites that cell to "a" — the
ReferenceRecord set is mutated by the matching phase. -/
theorem match_eins_exact_mutates_bmf_counterexample :
    (match_eins_exact exC8upload "org" exC8bmf "name").map (fun p => p.2) = some exC8bmfMut ∧
    exC8bmfMut ≠ exC8bmf := ⟨rfl, by decide⟩

/-- C7: a 200 response for identifier 131624102 whose organization lists
the single officer Jane Doe (CEO, compensation 500000) yields the
keyPersonnel value "Jane Doe (CEO) - $500000" and a filing link built
around "131624102"; an empty officer list yields the "N/A" marker rather
than an empty string; two officers are joined in response order. -/
theorem fetch_propublica_key_personnel :
    ((fetch_propublica_async "131624102" (.response 200 (some exC7body))).map
        (fun e => e.keyEmployees)) = some "Jane Doe (CEO) - $500000" ∧
    ((fetch_propublica_async "131624102" (.response 200 (some exC7body))).map
        (fun e => e.filingLink)) =
      some ("https://projects.propublica.org/nonprofits/organizations/" ++ "131624102" ++ "/full") ∧
    joinOfficers [] = "N/A" ∧
    joinOfficers [⟨some "A", some "B", some "1"⟩, ⟨some "C", some "D", some "2"⟩] =
      "A (B) - $1; C (D) - $2" := ⟨rfl, rfl, rfl, rfl⟩

/-- C4: each per-request failure mode (transport error, non-200 status,
unparsable body) yields an absent enrichment entry, and a batch of
failures yields absent entries without disturbing each other; but the
pipeline tail does NOT still produce the final dataset when every
enrichment call fails — after `ein` was renamed to `EIN`, `deduplicate`'s
`drop_duplicates(subset=["ein"])` raises a KeyError, so the run aborts
with an exception instead of a dataset. -/
theorem enrichment_failures_and_pipeline_crash :
    fetch_propublica_async "1" FetchOutcome.transportError = none ∧
    fetch_propublica_async "1"
      (.response 500 (some ⟨some ⟨some "5", some "w", some "m", []⟩⟩)) = none ∧
    fetch_propublica_async "1" (.response 200 none) = none ∧
    fetch_all_propublica (fun _ => .transportError) ["1", "2"] = [none, none] ∧
    pipelineStep3 exC4enriched "org" [none, none] = Except.error "KeyError" :=
  ⟨rfl, rfl, rfl, rfl, rfl⟩

theorem char_eq_of_toNat_eq {a b : Char} (h : a.toNat = b.toNat) : a = b :=
  Char.eq_of_val_eq (UInt32.toNat.inj h)

theorem charListLt_irrefl : ∀ l : List Char, charListLt l l = false
  | [] => rfl
  | a :: as => by
    unfold charListLt
    rw [if_neg (Nat.lt_irrefl a.toNat), if_neg (Nat.lt_irrefl a.toNat)]
    exact charListLt_irrefl as

theorem charListLt_asymm : ∀ {l m : List Char}, charListLt l m = true → charListLt m l = false
  | [], [], h => by simp [charListLt] at h
  | [], _ :: _, _ => rfl
  | _ :: _, [], h => by simp [charListLt] at h
  | a :: as, b :: bs, h => by
    unfold charListLt at h ⊢
    by_cases hab : a.toNat < b.toNat
    · rw [if_neg (Nat.lt_asymm hab), if_pos hab]
    · rw [if_neg hab] at h
      by_cases hba : b.toNat < a.toNat
      · rw [if_pos hba] at h
        simp at h
      · rw [if_neg hba] at h
        rw [if_neg hba, if_neg hab]
        exact charListLt_asymm h

theorem charListLt_trans : ∀ {l m n : List Char},
    charListLt l m = true → charListLt m n = true → charListLt l n = true
  | [], [], _, h1, _ => by simp [charListLt] at h1
  | [], _ :: _, [], _, h2 => by simp [charListLt] at h2
  | [], _ :: _, _ :: _, _, _ => rfl
  | _ :: _, [], _, h1, _ => by simp [charListLt] at h1
  | _ :: _, _ :: _, [], _, h2 => by simp [charListLt] at h2
  | a :: as, b :: bs, c :: cs, h1, h2 => by
    unfold charListLt at h1 h2 ⊢
    by_cases hab : a.toNat < b.toNat
    · by_cases hbc : b.toNat < c.toNat
      · rw [if_pos (Nat.lt_trans hab hbc)]
      · rw [if_neg hbc] at h2
        by_cases hcb : c.toNat < b.toNat
        · rw [if_pos hcb] at h2; simp at h2
        · have hbc' : b.toNat = c.toNat :=
            Nat.le_antisymm (Nat.le_of_not_lt hcb) (Nat.le_of_not_lt hbc)
          rw [if_pos (hbc' ▸ hab)]
    · rw [if_neg hab] at h1
      by_cases hba : b.toNat < a.toNat
      · rw [if_pos hba] at h1; simp at h1
      · have hab' : a.toNat = b.toNat :=
          Nat.le_antisymm (Nat.le_of_not_lt hba) (Nat.le_of_not_lt hab)
        rw [if_neg hba] at h1
        by_cases hbc : b.toNat < c.toNat
        · rw [if_pos (hab' ▸ hbc)]
        · rw [if_neg hbc] at h2
          by_cases hcb : c.toNat < b.toNat
          · rw [if_pos hcb] at h2; simp at h2
          · rw [if_neg hcb] at h2
            rw [if_neg (hab' ▸ hbc), if_neg (fun hca => hcb (hab' ▸ hca))]
            exact charListLt_trans h1 h2

theorem charListLt_eq_of_not : ∀ {l m : List Char},
    charListLt l m = false → charListLt m l = false → l = m
  | [], [], _, _ => rfl
  | [], _ :: _, h1, _ => by simp [charListLt] at h1
  | _ :: _, [], _, h2 => by simp [charListLt] at h2
  | a :: as, b :: bs, h1, h2 => by
    unfold charListLt at h1 h2
    by_cases hab : a.toNat < b.toNat
    · rw [if_pos hab] at h1; simp at h1
    · by_cases hba : b.toNat < a.toNat
      · rw [if_pos hba] at h2; simp at h2
      · rw [if_neg hab, if_neg hba] at h1
        rw [if_neg hba, if_neg hab] at h2
        have hch : a = b :=
          char_eq_of_toNat_eq (Nat.le_antisymm (Nat.le_of_not_lt hba) (Nat.le_of_not_lt hab))
        rw [hch, charListLt_eq_of_not h1 h2]

theorem str_eq_of_data_eq : ∀ {a b : String}, a.data = b.data → a = b
  | ⟨_⟩, ⟨_⟩, h => congrArg String.mk h

theorem strLt_irrefl (a : String) : strLt a a = false := charListLt_irrefl a.data

theorem strLt_asymm {a b : String} (h : strLt a b = true) : strLt b a = false :=
  charListLt_asymm h

theorem strLt_trans {a b c : String} (h1 : strLt a b = true) (h2 : strLt b c = true) :
    strLt a c = true := charListLt_trans h1 h2

theorem strLt_eq_of_not {a b : String} (h1 : strLt a b = false) (h2 : strLt b a = false) :
    a = b := str_eq_of_data_eq (charListLt_eq_of_not h1 h2)

theorem cmpStr_lt_iff {a b : String} : cmpStr a b = .lt ↔ strLt a b = true := by
  unfold cmpStr
  by_cases h : strLt a b = true
  · rw [if_pos h]; simp [h]
  · rw [if_neg h]
    by_cases h2 : strLt b a = true
    · rw [if_pos h2]
      simp only [Bool.not_eq_true] at h
      simp [h]
    · rw [if_neg h2]
      simp only [Bool.not_eq_true] at h
      simp [h]

theorem cmpStr_gt_iff {a b : String} : cmpStr a b = .gt ↔ strLt b a = true := by
  unfold cmpStr
  by_cases h : strLt a b = true
  · rw [if_pos h]
    have := strLt_asymm h
    simp [this]
  · rw [if_neg h]
    by_cases h2 : strLt b a = true
    · rw [if_pos h2]; simp [h2]
    · rw [if_neg h2]
      simp only [Bool.not_eq_true] at h2
      simp [h2]

theorem cmpStr_eq_iff {a b : String} : cmpStr a b = .eq ↔ a = b := by
  unfold cmpStr
  by_cases h : strLt a b = true
  · rw [if_pos h]
    constructor
    · intro hc; simp at hc
    · intro he; subst he; rw [strLt_irrefl] at h; simp at h
  · rw [if_neg h]
    by_cases h2 : strLt b a = true
    · rw [if_pos h2]
      constructor
      · intro hc; simp at hc
      · intro he; subst he; rw [strLt_irrefl] at h2; simp at h2
    · rw [if_neg h2]
      simp only [Bool.not_eq_true] at h h2
      simp only [true_iff]
      exact strLt_eq_of_not h h2

theorem cellCmp_eq_iff {asc : Bool} {x y : Cell} : cellCmp asc x y = .eq ↔ x = y := by
  cases x with
  | none => cases y <;> simp [cellCmp]
  | some a =>
    cases y with
    | none => simp [cellCmp]
    | some b =>
      cases asc
      · show cmpStr b a = .eq ↔ _
        rw [cmpStr_eq_iff]
        simp [eq_comm]
      · show cmpStr a b = .eq ↔ _
        rw [cmpStr_eq_iff]
        simp

theorem cellCmp_refl (asc : Bool) (x : Cell) : cellCmp asc x x = .eq :=
  cellCmp_eq_iff.mpr rfl

theorem cellCmp_lt_iff_swap_gt {asc : Bool} {x y : Cell} :
    cellCmp asc x y = .lt ↔ cellCmp asc y x = .gt := by
  cases x with
  | none => cases y <;> simp [cellCmp]
  | some a =>
    cases y with
    | none => simp [cellCmp]
    | some b =>
      cases asc
      · show cmpStr b a = .lt ↔ cmpStr a b = .gt
        rw [cmpStr_lt_iff, cmpStr_gt_iff]
      · show cmpStr a b = .lt ↔ cmpStr b a = .gt
        rw [cmpStr_lt_iff, cmpStr_gt_iff]

theorem cellCmp_lt_trans {asc : Bool} {x y z : Cell}
    (h1 : cellCmp asc x y = .lt) (h2 : cellCmp asc y z = .lt) : cellCmp asc x z = .lt := by
  cases x with
  | none => cases y <;> simp [cellCmp] at h1
  | some a =>
    cases y with
    | none => cases z <;> simp [cellCmp] at h2
    | some b =>
      cases z with
      | none => rfl
      | some c =>
        cases asc
        · show cmpStr c a = .lt
          have h1' : cmpStr b a = .lt := h1
          have h2' : cmpStr c b = .lt := h2
          rw [cmpStr_lt_iff] at h1' h2' ⊢
          exact strLt_trans h2' h1'
        · show cmpStr a c = .lt
          have h1' : cmpStr a b = .lt := h1
          have h2' : cmpStr b c = .lt := h2
          rw [cmpStr_lt_iff] at h1' h2' ⊢
          exact strLt_trans h1' h2'

theorem rowCmp_cons (i : Nat) (asc : Bool) (ks : List (Nat × Bool)) (r s : List Cell) :
    rowCmp ((i, asc) :: ks) r s =
      match cellCmp asc (cellAt r i) (cellAt s i) with
      | .eq => rowCmp ks r s
      | o => o := rfl

theorem rowCmp_eq_iff : ∀ (keys : List (Nat × Bool)) (r s : List Cell),
    rowCmp keys r s = .eq ↔ ∀ k ∈ keys, cellAt r k.1 = cellAt s k.1 := by
  intro keys
  induction keys with
  | nil => intro r s; simp [rowCmp]
  | cons k ks ih =>
    intro r s
    obtain ⟨i, asc⟩ := k
    rw [rowCmp_cons]
    cases hc : cellCmp asc (cellAt r i) (cellAt s i) with
    | eq =>
      have hcell := cellCmp_eq_iff.mp hc
      simp only [List.mem_cons]
      constructor
      · intro h k' hk'
        rcases hk' with rfl | hk'
        · exact hcell
        · exact (ih r s).mp h k' hk'
      · intro h
        exact (ih r s).mpr (fun k' hk' => h k' (Or.inr hk'))
    | lt =>
      simp only [List.mem_cons]
      constructor
      · intro h; simp at h
      · intro h
        have : cellAt r i = cellAt s i := h (i, asc) (Or.inl rfl)
        rw [cellCmp_eq_iff.mpr this] at hc
        simp at hc
    | gt =>
      simp only [List.mem_cons]
      constructor
      · intro h; simp at h
      · intro h
        have : cellAt r i = cellAt s i := h (i, asc) (Or.inl rfl)
        rw [cellCmp_eq_iff.mpr this] at hc
        simp at hc

theorem rowCmp_congr_right : ∀ (keys : List (Nat × Bool)) (a b c : List Cell),
    (∀ k ∈ keys, cellAt a k.1 = cellAt b k.1) → rowCmp keys c a = rowCmp keys c b := by
  intro keys
  induction keys with
  | nil => intro a b c _; rfl
  | cons k ks ih =>
    intro a b c hcells
    obtain ⟨i, asc⟩ := k
    rw [rowCmp_cons, rowCmp_cons, hcells (i, asc) (List.mem_cons_self _ _)]
    rw [ih a b c (fun k' hk' => hcells k' (List.mem_cons_of_mem _ hk'))]

theorem rowCmp_lt_iff_swap_gt : ∀ {keys : List (Nat × Bool)} {r s : List Cell},
    rowCmp keys r s = .lt ↔ rowCmp keys s r = .gt := by
  intro keys
  induction keys with
  | nil => intro r s; simp [rowCmp]
  | cons k ks ih =>
    intro r s
    obtain ⟨i, asc⟩ := k
    rw [rowCmp_cons, rowCmp_cons]
    cases hc : cellCmp asc (cellAt r i) (cellAt s i) with
    | eq =>
      have hsym : cellCmp asc (cellAt s i) (cellAt r i) = .eq :=
        cellCmp_eq_iff.mpr (cellCmp_eq_iff.mp hc).symm
      rw [hsym]
      exact ih
    | lt =>
      have hsw : cellCmp asc (cellAt s i) (cellAt r i) = .gt :=
        cellCmp_lt_iff_swap_gt.mp hc
      rw [hsw]
      simp
    | gt =>
      have hsw : cellCmp asc (cellAt s i) (cellAt r i) = .lt :=
        cellCmp_lt_iff_swap_gt.mpr hc
      rw [hsw]
      simp

theorem rowCmp_lt_trans : ∀ {keys : List (Nat × Bool)} {r s t : List Cell},
    rowCmp keys r s = .lt → rowCmp keys s t = .lt → rowCmp keys r t = .lt := by
  intro keys
  induction keys with
  | nil => intro r s t h1 _; simp [rowCmp] at h1
  | cons k ks ih =>
    intro r s t h1 h2
    obtain ⟨i, asc⟩ := k
    rw [rowCmp_cons] at h1 h2 ⊢
    cases hc1 : cellCmp asc (cellAt r i) (cellAt s i) with
    | eq =>
      rw [hc1] at h1
      have hcell1 := cellCmp_eq_iff.mp hc1
      cases hc2 : cellCmp asc (cellAt s i) (cellAt t i) with
      | eq =>
        rw [hc2] at h2
        rw [cellCmp_eq_iff.mpr (hcell1.trans (cellCmp_eq_iff.mp hc2))]
        exact ih h1 h2
      | lt =>
        have hrt : cellCmp asc (cellAt r i) (cellAt t i) = .lt := by
          rw [hcell1]
          exact hc2
        rw [hrt]
      | gt => rw [hc2] at h2; simp at h2
    | lt =>
      rw [hc1] at h1
      cases hc2 : cellCmp asc (cellAt s i) (cellAt t i) with
      | eq =>
        have hcell2 := cellCmp_eq_iff.mp hc2
        have hrt : cellCmp asc (cellAt r i) (cellAt t i) = .lt := by
          rw [← hcell2]
          exact hc1
        rw [hrt]
      | lt => rw [cellCmp_lt_trans hc1 hc2]
      | gt => rw [hc2] at h2; simp at h2
    | gt => rw [hc1] at h1; simp at h1

theorem rowLtB_lt_iff {keys : List (Nat × Bool)} {r s : List Cell} :
    rowLtB keys r s = true ↔ rowCmp keys r s = .lt := by
  unfold rowLtB
  cases rowCmp keys r s <;> decide

theorem rowLtB_asymm {keys : List (Nat × Bool)} {a b : List Cell}
    (h : rowLtB keys a b = true) : rowLtB keys b a = false := by
  rw [rowLtB_lt_iff] at h
  have hgt : rowCmp keys b a = .gt := rowCmp_lt_iff_swap_gt.mp h
  unfold rowLtB
  rw [hgt]
  rfl

theorem rowLtB_le_trans {keys : List (Nat × Bool)} {a b c : List Cell}
    (h1 : rowLtB keys b a = false) (h2 : rowLtB keys c b = false) :
    rowLtB keys c a = false := by
  rw [Bool.eq_false_iff] at h1 h2 ⊢
  intro hca
  rw [Ne, rowLtB_lt_iff] at h1 h2
  rw [rowLtB_lt_iff] at hca
  cases hba : rowCmp keys b a with
  | lt => exact h1 hba
  | eq =>
    have hcb := rowCmp_congr_right keys b a c ((rowCmp_eq_iff keys b a).mp hba)
    exact h2 (by rw [hcb]; exact hca)
  | gt =>
    have hab : rowCmp keys a b = .lt := rowCmp_lt_iff_swap_gt.mpr hba
    exact h2 (rowCmp_lt_trans hca hab)

theorem insertSorted_perm {α : Type} (lt : α → α → Bool) (x : α) :
    ∀ l : List α, (insertSorted lt x l).Perm (x :: l) := by
  intro l
  induction l with
  | nil => exact List.Perm.refl _
  | cons b t ih =>
    unfold insertSorted
    by_cases h : lt b x = true
    · rw [if_pos h]
      exact (ih.cons b).trans (List.Perm.swap x b t)
    · rw [if_neg h]

theorem isortRows_perm {α : Type} (lt : α → α → Bool) :
    ∀ l : List α, (isortRows lt l).Perm l := by
  intro l
  induction l with
  | nil => exact List.Perm.refl _
  | cons x t ih =>
    unfold isortRows
    exact (insertSorted_perm lt x (isortRows lt t)).trans (ih.cons x)

theorem insertSorted_pairwise {α : Type} (lt : α → α → Bool)
    (hasymm : ∀ a b : α, lt a b = true → lt b a = false)
    (htrans : ∀ a b c : α, lt b a = false → lt c b = false → lt c a = false)
    (x : α) : ∀ l : List α, l.Pairwise (fun a b => lt b a = false) →
      (insertSorted lt x l).Pairwise (fun a b => lt b a = false) := by
  intro l
  induction l with
  | nil => intro _; exact List.pairwise_singleton _ _
  | cons b t ih =>
    intro hp
    rcases List.pairwise_cons.mp hp with ⟨hb, hp'⟩
    unfold insertSorted
    by_cases h : lt b x = true
    · rw [if_pos h]
      refine List.Pairwise.cons ?_ (ih hp')
      intro c hc
      have hmem := (insertSorted_perm lt x t).mem_iff.mp hc
      rcases List.mem_cons.mp hmem with rfl | hct
      · exact hasymm b c h
      · exact hb c hct
    · rw [if_neg h]
      have hxb : lt b x = false := by
        cases hbx : lt b x
        · rfl
        · exact absurd hbx h
      refine List.Pairwise.cons ?_ hp
      intro c hc
      rcases List.mem_cons.mp hc with rfl | hct
      · exact hxb
      · exact htrans x b c hxb (hb c hct)

theorem isortRows_pairwise {α : Type} (lt : α → α → Bool)
    (hasymm : ∀ a b : α, lt a b = true → lt b a = false)
    (htrans : ∀ a b c : α, lt b a = false → lt c b = false → lt c a = false) :
    ∀ l : List α, (isortRows lt l).Pairwise (fun a b => lt b a = false) := by
  intro l
  induction l with
  | nil => exact List.Pairwise.nil
  | cons x t ih =>
    unfold isortRows
    exact insertSorted_pairwise lt hasymm htrans x (isortRows lt t) ih

theorem insertSorted_filter_pos {α : Type} (lt : α → α → Bool) (q : α → Bool) (x : α)
    (hq : ∀ b, q b = true → lt b x = false) (hx : q x = true) :
    ∀ l : List α, (insertSorted lt x l).filter q = x :: l.filter q := by
  intro l
  induction l with
  | nil => simp [insertSorted, hx]
  | cons b t ih =>
    unfold insertSorted
    by_cases h : lt b x = true
    · rw [if_pos h]
      have hqb : q b = false := by
        cases hqb : q b
        · rfl
        · exact absurd (hq b hqb) (by simp [h])
      rw [List.filter_cons, if_neg (by simp [hqb]), ih, List.filter_cons,
        if_neg (by simp [hqb])]
    · rw [if_neg h]
      rw [List.filter_cons, if_pos (by simp [hx])]

theorem insertSorted_filter_neg {α : Type} (lt : α → α → Bool) (q : α → Bool) (x : α)
    (hx : q x = false) :
    ∀ l : List α, (insertSorted lt x l).filter q = l.filter q := by
  intro l
  induction l with
  | nil => simp [insertSorted, hx]
  | cons b t ih =>
    unfold insertSorted
    by_cases h : lt b x = true
    · rw [if_pos h, List.filter_cons, List.filter_cons, ih]
    · rw [if_neg h, List.filter_cons, if_neg (by simp [hx])]

theorem isortRows_filter {α : Type} (lt : α → α → Bool) (q : α → Bool)
    (hties : ∀ a b : α, q a = true → q b = true → lt a b = false) :
    ∀ l : List α, (isortRows lt l).filter q = l.filter q := by
  intro l
  induction l with
  | nil => rfl
  | cons x t ih =>
    unfold isortRows
    cases hx : q x
    · rw [insertSorted_filter_neg lt q x hx, ih, List.filter_cons, if_neg (by simp [hx])]
    · rw [insertSorted_filter_pos lt q x (fun b hb => hties b x hb hx) hx, ih,
        List.filter_cons, if_pos (by simp [hx])]

theorem head_filter_subpred {α : Type} (p q : α → Bool)
    (hsub : ∀ x, q x = true → p x = true) :
    ∀ (l : List α) (r : α), (l.filter p).head? = some r → q r = true →
      (l.filter q).head? = some r := by
  intro l
  induction l with
  | nil => intro r h _; simp at h
  | cons a t ih =>
    intro r h hq
    rw [List.filter_cons] at h
    by_cases hpa : p a = true
    · rw [if_pos hpa] at h
      simp only [List.head?_cons, Option.some.injEq] at h
      subst h
      rw [List.filter_cons, if_pos (by simp [hq])]
      rfl
    · rw [if_neg hpa] at h
      have hqa : q a = false := by
        cases hqa : q a
        · rfl
        · exact absurd (hsub a hqa) hpa
      rw [List.filter_cons, if_neg (by simp [hqa])]
      exact ih r h hq

theorem revCellLe_refl (x : Cell) : revCellLe x x = true := by
  cases x
  · rfl
  · show (!(strLt _ _)) = true
    rw [strLt_irrefl]
    rfl

theorem cellCmp_desc_ne_lt {a b : Cell} (h : ¬ cellCmp false a b = .lt) :
    revCellLe a b = true := by
  cases a with
  | none => rfl
  | some x =>
    cases b with
    | none => exact absurd rfl h
    | some y =>
      show (!(strLt y x)) = true
      cases hs : strLt y x
      · rfl
      · exact absurd (show cellCmp false (some x) (some y) = .lt from cmpStr_lt_iff.mpr hs) h

theorem rowLtB_false_rev_le {ei ri : Nat} {s r : List Cell}
    (he : cellAt s ei = cellAt r ei)
    (h : rowLtB [(ei, true), (ri, false)] s r = false) :
    revCellLe (cellAt s ri) (cellAt r ri) = true := by
  rw [Bool.eq_false_iff, Ne, rowLtB_lt_iff] at h
  rw [rowCmp_cons, cellCmp_eq_iff.mpr he] at h
  apply cellCmp_desc_ne_lt
  intro hlt
  exact h (by rw [rowCmp_cons, hlt])

theorem rowLtB_eq_of_cells {keys : List (Nat × Bool)} {a b : List Cell}
    (h : ∀ k ∈ keys, cellAt a k.1 = cellAt b k.1) : rowLtB keys a b = false := by
  unfold rowLtB
  rw [(rowCmp_eq_iff keys a b).mpr h]
  rfl

theorem filter_single_key_pred (ei : Nat) (e : Cell) (l : List (List Cell)) :
    l.filter (fun x => ([cellAt x ei] : List Cell) = [e]) =
      l.filter (fun r => cellAt r ei = e) := by
  apply List.filter_congr
  intro x _
  simp

/-- C5 (amended): for every nonempty identifier group, the identifier
pass of the Deduplicator keeps exactly one record: one belonging to the
group whose revenue string is largest under lexicographic comparison
(missing revenue sorting below every string), and among the rows of the
group attaining that revenue, the earliest in original order. -/
theorem deduplicate_group_survivor (df : Frame) (ei ri : Nat) (e : Cell)
    (hei : colIdx df "ein" = some ei) (hri : colIdx df "revenue_amt" = some ri)
    (d1 : Frame) (h1 : dropDuplicates (dedupSortStage df) ["ein"] = .ok d1)
    (hne : df.rows.filter (fun r => cellAt r ei = e) ≠ []) :
    ∃ r, d1.rows.filter (fun r => cellAt r ei = e) = [r] ∧
      r ∈ df.rows.filter (fun r => cellAt r ei = e) ∧
      (∀ s ∈ df.rows.filter (fun r => cellAt r ei = e),
        revCellLe (cellAt s ri) (cellAt r ri) = true) ∧
      (df.rows.filter (fun s => cellAt s ei = e ∧ cellAt s ri = cellAt r ri)).head? = some r := by
  have hei' : colIdx (dedupSortStage df) "ein" = some ei := by
    show idxOfCol "ein" (dedupSortStage df).cols = some ei
    rw [dedupSortStage_cols]
    exact hei
  rw [dropDuplicates_single_eq _ _ _ hei'] at h1
  simp only [Except.ok.injEq] at h1
  subst h1
  have hsort : (dedupSortStage df).rows = isortRows (rowLtB [(ei, true), (ri, false)]) df.rows :=
    dedupSortStage_rows df ei ri hei hri
  have e1 := dedupFirst_filter (fun r : List Cell => [cellAt r ei]) [e] (dedupSortStage df).rows []
  rw [if_neg (List.not_mem_nil _), filter_single_key_pred ei e,
    filter_single_key_pred ei e] at e1
  have hperm : ((dedupSortStage df).rows.filter (fun r => cellAt r ei = e)).Perm
      (df.rows.filter (fun r => cellAt r ei = e)) := by
    rw [hsort]
    exact (isortRows_perm _ _).filter _
  have hsne : (dedupSortStage df).rows.filter (fun r => cellAt r ei = e) ≠ [] := by
    intro h0
    rw [h0] at hperm
    exact hne hperm.nil_eq.symm
  obtain ⟨r, rest, hcons⟩ : ∃ r rest,
      (dedupSortStage df).rows.filter (fun r => cellAt r ei = e) = r :: rest := by
    cases hc : (dedupSortStage df).rows.filter (fun r => cellAt r ei = e) with
    | nil => exact absurd hc hsne
    | cons r rest => exact ⟨r, rest, rfl⟩
  have hrei : cellAt r ei = e := by
    have hrmem : r ∈ (dedupSortStage df).rows.filter (fun r => cellAt r ei = e) := by
      rw [hcons]; exact List.mem_cons_self _ _
    exact of_decide_eq_true (List.mem_filter.mp hrmem).2
  refine ⟨r, ?_, ?_, ?_, ?_⟩
  · show (dedupFirst (fun r => [cellAt r ei]) (dedupSortStage df).rows []).filter _ = [r]
    rw [e1, hcons]
    rfl
  · apply hperm.subset
    rw [hcons]
    exact List.mem_cons_self _ _
  · intro s hs
    have hs' : s ∈ (dedupSortStage df).rows.filter (fun r => cellAt r ei = e) :=
      hperm.symm.subset hs
    rw [hcons] at hs'
    rcases List.mem_cons.mp hs' with rfl | hs''
    · exact revCellLe_refl _
    · have hpw : ((dedupSortStage df).rows.filter (fun r => cellAt r ei = e)).Pairwise
          (fun a b => rowLtB [(ei, true), (ri, false)] b a = false) := by
        apply List.Pairwise.filter
        rw [hsort]
        exact isortRows_pairwise (rowLtB [(ei, true), (ri, false)])
          (fun a b h => rowLtB_asymm h)
          (fun a b c h1 h2 => rowLtB_le_trans h1 h2) df.rows
      rw [hcons] at hpw
      have hle : rowLtB [(ei, true), (ri, false)] s r = false :=
        (List.pairwise_cons.mp hpw).1 s hs''
      have hsei : cellAt s ei = e := of_decide_eq_true (List.mem_filter.mp hs).2
      exact rowLtB_false_rev_le (by rw [hsei, hrei]) hle
  · have hsub : ∀ x : List Cell,
        (decide (cellAt x ei = e ∧ cellAt x ri = cellAt r ri)) = true →
        (decide (cellAt x ei = e)) = true := by
      intro x hx
      exact decide_eq_true (of_decide_eq_true hx).1
    have hhead : ((dedupSortStage df).rows.filter (fun r => cellAt r ei = e)).head? = some r := by
      rw [hcons]
      rfl
    have hqr : (decide (cellAt r ei = e ∧ cellAt r ri = cellAt r ri)) = true :=
      decide_eq_true ⟨hrei, rfl⟩
    have hq_head := head_filter_subpred _ _ hsub (dedupSortStage df).rows r hhead hqr
    have hstab : (dedupSortStage df).rows.filter
          (fun s => cellAt s ei = e ∧ cellAt s ri = cellAt r ri) =
        df.rows.filter (fun s => cellAt s ei = e ∧ cellAt s ri = cellAt r ri) := by
      rw [hsort]
      apply isortRows_filter
      intro a b ha hb
      have ha' := of_decide_eq_true ha
      have hb' := of_decide_eq_true hb
      apply rowLtB_eq_of_cells
      intro k hk
      rcases List.mem_cons.mp hk with rfl | hk'
      · show cellAt a ei = cellAt b ei
        rw [ha'.1, hb'.1]
      · rcases List.mem_cons.mp hk' with rfl | hk''
        · show cellAt a ri = cellAt b ri
          rw [ha'.2, hb'.2]
        · exact absurd hk'' (List.not_mem_nil _)
    rw [hstab] at hq_head
    exact hq_head

/-- Witness for C5's amended statement on `exDedupFrame`, group "1". -/
theorem deduplicate_group_survivor_witness :
    colIdx exDedupFrame "ein" = some 0 ∧
    colIdx exDedupFrame "revenue_amt" = some 1 ∧
    dropDuplicates (dedupSortStage exDedupFrame) ["ein"] = .ok exDedupOut ∧
    exDedupFrame.rows.filter (fun r => cellAt r 0 = some "1") ≠ [] ∧
    (∃ r, exDedupOut.rows.filter (fun r => cellAt r 0 = some "1") = [r] ∧
      r ∈ exDedupFrame.rows.filter (fun r => cellAt r 0 = some "1") ∧
      (∀ s ∈ exDedupFrame.rows.filter (fun r => cellAt r 0 = some "1"),
        revCellLe (cellAt s 1) (cellAt r 1) = true) ∧
      (exDedupFrame.rows.filter
        (fun s => cellAt s 0 = some "1" ∧ cellAt s 1 = cellAt r 1)).head? = some r) :=
  ⟨rfl, rfl, rfl, by decide,
    deduplicate_group_survivor exDedupFrame 0 1 (some "1") rfl rfl exDedupOut rfl (by decide)⟩

theorem set_cellAt_self : ∀ (r : List Cell) (i : Nat), r.set i (cellAt r i) = r := by
  intro r
  induction r with
  | nil => intro i; rfl
  | cons a t ih =>
    intro i
    cases i with
    | zero =>
      show cellAt (a :: t) 0 :: t = a :: t
      have hc : cellAt (a :: t) 0 = a := by simp [cellAt]
      rw [hc]
    | succ n =>
      show a :: t.set n (cellAt (a :: t) (n + 1)) = a :: t
      have hc : cellAt (a :: t) (n + 1) = cellAt t n := by simp [cellAt]
      rw [hc, ih n]

theorem list_map_self {α : Type} (f : α → α) : ∀ l : List α,
    (∀ x ∈ l, f x = x) → l.map f = l := by
  intro l
  induction l with
  | nil => intro _; rfl
  | cons a t ih =>
    intro h
    rw [List.map_cons, h a (List.mem_cons_self _ _),
      ih (fun x hx => h x (List.mem_cons_of_mem _ hx))]

theorem match_eins_exact_parts (u : Frame) (org : String) (b : Frame) (bn : String)
    (m bOut : Frame) (bni : Nat)
    (hbni : colIdx b bn = some bni)
    (h : match_eins_exact u org b bn = some (m, bOut)) :
    bOut = ⟨b.cols, b.rows.map (fun r => r.set bni (Option.map normalizeName (cellAt r bni)))⟩ ∧
    ∃ sel, selectCols bOut (bn :: bmfAttrCols) = some sel ∧
      mergeLeftOn u sel org bn = some m := by
  unfold match_eins_exact at h
  have hmap : mapColO b bn (Option.map normalizeName) =
      some ⟨b.cols, b.rows.map (fun r => r.set bni (Option.map normalizeName (cellAt r bni)))⟩ := by
    unfold mapColO
    rw [hbni]
    rfl
  rw [hmap] at h
  have h2 : (do
      let sel ← selectCols (⟨b.cols,
        b.rows.map (fun r => r.set bni (Option.map normalizeName (cellAt r bni)))⟩ : Frame)
        (bn :: bmfAttrCols)
      let merged ← mergeLeftOn u sel org bn
      some (merged, (⟨b.cols,
        b.rows.map (fun r => r.set bni (Option.map normalizeName (cellAt r bni)))⟩ : Frame))) =
      some (m, bOut) := h
  cases hsel : selectCols (⟨b.cols,
      b.rows.map (fun r => r.set bni (Option.map normalizeName (cellAt r bni)))⟩ : Frame)
      (bn :: bmfAttrCols) with
  | none => rw [hsel] at h2; simp at h2
  | some sel =>
    rw [hsel] at h2
    have h3 : (do
        let merged ← mergeLeftOn u sel org bn
        some (merged, (⟨b.cols,
          b.rows.map (fun r => r.set bni (Option.map normalizeName (cellAt r bni)))⟩ : Frame))) =
        some (m, bOut) := h2
    cases hmer : mergeLeftOn u sel org bn with
    | none => rw [hmer] at h3; simp at h3
    | some merged =>
      rw [hmer] at h3
      have h4 : (some ((merged, (⟨b.cols,
          b.rows.map (fun r => r.set bni (Option.map normalizeName (cellAt r bni)))⟩ : Frame))) :
          Option (Frame × Frame)) = some (m, bOut) := h3
      simp only [Option.some.injEq, Prod.mk.injEq] at h4
      obtain ⟨hm, hF⟩ := h4
      subst hm
      subst hF
      exact ⟨rfl, sel, hsel, hmer⟩

/-- C8 (amended): the Exact Matcher returns the reference frame with the
same columns, row count and row order, every non-name cell unchanged, and
the name column overwritten with its normalized values; a reference set
whose names are already normalized is returned unchanged.  (Deduplication
and the fuzzy fallback never write to the reference frame at all — their
embeddings do not return a modified registry.) -/
theorem match_eins_exact_bmf_mutation_shape (u : Frame) (org : String) (b : Frame)
    (bn : String) (m bOut : Frame) (bni : Nat)
    (hbni : colIdx b bn = some bni)
    (h : match_eins_exact u org b bn = some (m, bOut)) :
    bOut.cols = b.cols ∧
    bOut.rows.length = b.rows.length ∧
    (∀ i j : Nat, j ≠ bni →
      (bOut.rows[i]?).map (fun r => cellAt r j) = (b.rows[i]?).map (fun r => cellAt r j)) ∧
    (∀ i : Nat, (bOut.rows[i]?).map (fun r => cellAt r bni) =
      (b.rows[i]?).map (fun r => (cellAt r bni).map normalizeName)) ∧
    ((∀ r ∈ b.rows, (cellAt r bni).map normalizeName = cellAt r bni) → bOut = b) := by
  obtain ⟨hB, -⟩ := match_eins_exact_parts u org b bn m bOut bni hbni h
  subst hB
  refine ⟨rfl, by simp, ?_, ?_, ?_⟩
  · intro i j hj
    show ((b.rows.map _)[i]?).map _ = _
    rw [List.getElem?_map]
    cases hri : b.rows[i]? with
    | none => rfl
    | some r =>
      simp only [Option.map_some']
      apply congrArg
      show cellAt (r.set bni (Option.map normalizeName (cellAt r bni))) j = cellAt r j
      unfold cellAt
      rw [List.getElem?_set_ne (fun he => hj he.symm)]
  · intro i
    show ((b.rows.map _)[i]?).map _ = _
    rw [List.getElem?_map]
    cases hri : b.rows[i]? with
    | none => rfl
    | some r =>
      simp only [Option.map_some']
      apply congrArg
      by_cases hlen : bni < r.length
      · show cellAt (r.set bni (Option.map normalizeName (cellAt r bni))) bni = _
        unfold cellAt
        rw [List.getElem?_set_self hlen]
        rfl
      · have hout : r[bni]? = none := by
          rw [List.getElem?_eq_none_iff]
          exact Nat.le_of_not_lt hlen
        have hsetid : r.set bni (Option.map normalizeName (cellAt r bni)) = r :=
          List.set_eq_of_length_le (Nat.le_of_not_lt hlen)
        show cellAt (r.set bni (Option.map normalizeName (cellAt r bni))) bni = _
        rw [hsetid]
        show cellAt r bni = (cellAt r bni).map normalizeName
        unfold cellAt
        rw [hout]
        rfl
  · intro hfix
    show Frame.mk b.cols (b.rows.map _) = b
    rw [list_map_self _ b.rows (fun r hr => by rw [hfix r hr]; exact set_cellAt_self r bni)]

/-- Witness for C8's amended statement on the concrete mutation input. -/
theorem match_eins_exact_bmf_mutation_shape_witness :
    colIdx exC8bmf "name" = some 0 ∧
    match_eins_exact exC8upload "org" exC8bmf "name" = some (exC8merged, exC8bmfMut) ∧
    (exC8bmfMut.cols = exC8bmf.cols ∧
     exC8bmfMut.rows.length = exC8bmf.rows.length ∧
     (∀ i j : Nat, j ≠ 0 →
       (exC8bmfMut.rows[i]?).map (fun r => cellAt r j) =
         (exC8bmf.rows[i]?).map (fun r => cellAt r j)) ∧
     (∀ i : Nat, (exC8bmfMut.rows[i]?).map (fun r => cellAt r 0) =
       (exC8bmf.rows[i]?).map (fun r => (cellAt r 0).map normalizeName)) ∧
     ((∀ r ∈ exC8bmf.rows, (cellAt r 0).map normalizeName = cellAt r 0) →
       exC8bmfMut = exC8bmf)) :=
  ⟨rfl, rfl, match_eins_exact_bmf_mutation_shape exC8upload "org" exC8bmf "name"
    exC8merged exC8bmfMut 0 rfl rfl⟩

/-- C1 (amended): the number of rows the Exact Matcher emits is the sum,
over the uploaded records, of the number of reference records sharing
that record's normalized name (one row per matching reference record),
with one NaN-padded row for a record matching nothing — it does not
select a single reference record per uploaded record. -/
theorem match_eins_exact_row_multiplicity (u : Frame) (org : String) (b : Frame)
    (bn : String) (m bOut : Frame) (oi bni : Nat)
    (hoi : colIdx u org = some oi) (hbni : colIdx b bn = some bni)
    (h : match_eins_exact u org b bn = some (m, bOut)) :
    m.rows.length = (u.rows.map (fun lr =>
      max (bOut.rows.countP (fun br => cellAt br bni = cellAt lr oi)) 1)).sum := by
  obtain ⟨hB, sel, hsel, hmer⟩ := match_eins_exact_parts u org b bn m bOut bni hbni h
  subst hB
  unfold selectCols at hsel
  cases hidxs : (bn :: bmfAttrCols).mapM
      (colIdx (⟨b.cols, b.rows.map
        (fun (r : List Cell) => r.set bni (Option.map normalizeName (cellAt r bni)))⟩ : Frame)) with
  | none => rw [hidxs] at hsel; simp at hsel
  | some idxs =>
    rw [hidxs] at hsel
    have hsel2 : sel = ⟨bn :: bmfAttrCols,
        (b.rows.map (fun (r : List Cell) => r.set bni (Option.map normalizeName (cellAt r bni)))).map
          (fun (r : List Cell) => idxs.map (cellAt r))⟩ := by
      have h' : (some (⟨bn :: bmfAttrCols,
          (b.rows.map (fun (r : List Cell) =>
            r.set bni (Option.map normalizeName (cellAt r bni)))).map
            (fun (r : List Cell) => idxs.map (cellAt r))⟩ : Frame) : Option Frame) = some sel := hsel
      simp only [Option.some.injEq] at h'
      exact h'.symm
    rw [List.mapM_cons] at hidxs
    have hcolF : colIdx (⟨b.cols, b.rows.map
        (fun (r : List Cell) => r.set bni (Option.map normalizeName (cellAt r bni)))⟩ : Frame) bn =
        some bni := hbni
    rw [hcolF] at hidxs
    have hidxs2 : (bmfAttrCols.mapM (colIdx (⟨b.cols, b.rows.map
        (fun (r : List Cell) => r.set bni (Option.map normalizeName (cellAt r bni)))⟩ : Frame))).bind
        (fun rest => some (bni :: rest)) = some idxs := hidxs
    cases hrest : bmfAttrCols.mapM (colIdx (⟨b.cols, b.rows.map
        (fun (r : List Cell) => r.set bni (Option.map normalizeName (cellAt r bni)))⟩ : Frame)) with
    | none => rw [hrest] at hidxs2; simp at hidxs2
    | some rest =>
      rw [hrest] at hidxs2
      have hidxseq : idxs = bni :: rest := by
        have h' : (some (bni :: rest) : Option (List Nat)) = some idxs := hidxs2
        simp only [Option.some.injEq] at h'
        exact h'.symm
      subst hidxseq
      subst hsel2
      unfold mergeLeftOn at hmer
      rw [hoi] at hmer
      have hm0 : colIdx (⟨bn :: bmfAttrCols,
          (b.rows.map (fun (r : List Cell) =>
            r.set bni (Option.map normalizeName (cellAt r bni)))).map
            (fun (r : List Cell) => (bni :: rest).map (cellAt r))⟩ : Frame) bn = some 0 := by
        show idxOfCol bn (bn :: bmfAttrCols) = some 0
        unfold idxOfCol
        rw [if_pos rfl]
      rw [hm0] at hmer
      have hmer2 : (some (⟨u.cols ++ (bn :: bmfAttrCols),
          u.rows.flatMap (fun (lr : List Cell) =>
            match ((b.rows.map (fun (r : List Cell) =>
                r.set bni (Option.map normalizeName (cellAt r bni)))).map
                (fun (r : List Cell) => (bni :: rest).map (cellAt r))).filter
                (fun (rr : List Cell) => cellAt rr 0 = cellAt lr oi) with
            | [] => [lr ++ List.replicate (bn :: bmfAttrCols).length (none : Cell)]
            | ms => ms.map (fun (rr : List Cell) => lr ++ rr))⟩ : Frame) : Option Frame) =
          some m := hmer
      simp only [Option.some.injEq] at hmer2
      subst hmer2
      show (u.rows.flatMap _).length = _
      rw [List.length_flatMap]
      apply congrArg List.sum
      apply List.map_congr_left
      intro lr _
      show (match ((b.rows.map (fun (r : List Cell) =>
            r.set bni (Option.map normalizeName (cellAt r bni)))).map
            (fun (r : List Cell) => (bni :: rest).map (cellAt r))).filter
            (fun (rr : List Cell) => cellAt rr 0 = cellAt lr oi) with
        | [] => [lr ++ List.replicate (bn :: bmfAttrCols).length (none : Cell)]
        | ms => ms.map (fun (rr : List Cell) => lr ++ rr)).length =
        max ((b.rows.map (fun (r : List Cell) =>
          r.set bni (Option.map normalizeName (cellAt r bni)))).countP
          (fun (br : List Cell) => cellAt br bni = cellAt lr oi)) 1
      rw [List.filter_map, List.countP_eq_length_filter]
      have hpred : (b.rows.map (fun (r : List Cell) =>
          r.set bni (Option.map normalizeName (cellAt r bni)))).filter
          ((fun (rr : List Cell) => decide (cellAt rr 0 = cellAt lr oi)) ∘
            (fun (r : List Cell) => (bni :: rest).map (cellAt r))) =
          (b.rows.map (fun (r : List Cell) =>
            r.set bni (Option.map normalizeName (cellAt r bni)))).filter
          (fun (br : List Cell) => cellAt br bni = cellAt lr oi) := by
        apply List.filter_congr
        intro x _
        show decide (cellAt ((bni :: rest).map (cellAt x)) 0 = cellAt lr oi) = _
        have hc0 : cellAt ((bni :: rest).map (cellAt x)) 0 = cellAt x bni := by
          simp [cellAt]
        rw [hc0]
      rw [hpred]
      cases hfil : (b.rows.map (fun (r : List Cell) =>
          r.set bni (Option.map normalizeName (cellAt r bni)))).filter
          (fun (br : List Cell) => cellAt br bni = cellAt lr oi) with
      | nil => rfl
      | cons x xs =>
        show ((List.map (fun (r : List Cell) => (bni :: rest).map (cellAt r)) (x :: xs)).map
          (fun (rr : List Cell) => lr ++ rr)).length = max (x :: xs).length 1
        rw [List.length_map, List.length_map]
        exact (Nat.max_eq_left (Nat.succ_le_succ (Nat.zero_le _))).symm

/-- Witness for C1's amended statement: one uploaded record, two
same-name registry records, two output rows. -/
theorem match_eins_exact_row_multiplicity_witness :
    colIdx exC1upload "org" = some 0 ∧
    colIdx exC1bmf "name" = some 0 ∧
    match_eins_exact exC1upload "org" exC1bmf "name" = some (exC1merged, exC1bmf) ∧
    exC1merged.rows.length = (exC1upload.rows.map (fun lr =>
      max (exC1bmf.rows.countP (fun br => cellAt br 0 = cellAt lr 0)) 1)).sum :=
  ⟨rfl, rfl, rfl, match_eins_exact_row_multiplicity exC1upload "org" exC1bmf "name"
    exC1merged exC1bmf 0 0 rfl rfl rfl⟩

theorem idxOfCol_get {c : String} : ∀ {l : List String} {i : Nat},
    idxOfCol c l = some i → l[i]? = some c := by
  intro l
  induction l with
  | nil => intro i h; simp [idxOfCol] at h
  | cons d t ih =>
    intro i h
    unfold idxOfCol at h
    by_cases hd : d = c
    · rw [if_pos hd] at h
      have hi : i = 0 := by
        simp only [Option.some.injEq] at h
        exact h.symm
      subst hi
      simp [hd]
    · rw [if_neg hd] at h
      cases hm : idxOfCol c t with
      | none => rw [hm] at h; simp at h
      | some j =>
        rw [hm] at h
        have hi : i = j + 1 := by
          simp only [Option.map_some', Option.some.injEq] at h
          exact h.symm
        subst hi
        simp only [List.getElem?_cons_succ]
        exact ih hm

theorem idxOfCol_lt {c : String} {l : List String} {i : Nat}
    (h : idxOfCol c l = some i) : i < l.length := by
  have := idxOfCol_get h
  rcases List.getElem?_eq_some_iff.mp this with ⟨hlt, -⟩
  exact hlt

theorem mapM_option_getElem? {α β : Type} (f : α → Option β) :
    ∀ (l : List α) (l' : List β), l.mapM f = some l' →
      ∀ (i : Nat) (a : α), l[i]? = some a → ∃ b, f a = some b ∧ l'[i]? = some b := by
  intro l
  induction l with
  | nil => intro l' _ i a ha; simp at ha
  | cons x t ih =>
    intro l' hm i a ha
    rw [List.mapM_cons] at hm
    cases hfx : f x with
    | none => rw [hfx] at hm; simp at hm
    | some b0 =>
      rw [hfx] at hm
      cases hmt : t.mapM f with
      | none => rw [hmt] at hm; simp at hm
      | some bs =>
        rw [hmt] at hm
        have h' : (some (b0 :: bs) : Option (List β)) = some l' := hm
        have hl' : l' = b0 :: bs := by
          simp only [Option.some.injEq] at h'
          exact h'.symm
        subst hl'
        cases i with
        | zero =>
          simp only [List.getElem?_cons_zero, Option.some.injEq] at ha
          subst ha
          exact ⟨b0, hfx, by simp⟩
        | succ n =>
          simp only [List.getElem?_cons_succ] at ha ⊢
          exact ih bs hmt n a ha

theorem setRowCols_cellAt_found (cols : List String) (updates : List (String × Cell))
    (r : List Cell) (i : Nat) (c : String) (v : Cell)
    (hc : cols[i]? = some c) (hi : i < r.length) (hv : updates.lookup c = some v) :
    cellAt (setRowCols cols updates r) i = v := by
  unfold setRowCols cellAt
  rw [List.getElem?_map]
  have hzip : (cols.zip r)[i]? = some (c, r[i]) := by
    rw [List.getElem?_zip_eq_some]
    exact ⟨hc, List.getElem?_eq_getElem hi⟩
  rw [hzip]
  simp only [Option.map_some', Option.getD_some]
  rw [hv]

theorem extractAcc_fst_mem (scorer : String → String → Nat) (q : String) :
    ∀ (cs : List String) (m : String) (s : Nat),
      (extractAcc scorer q cs (m, s)).1 = m ∨ (extractAcc scorer q cs (m, s)).1 ∈ cs := by
  intro cs
  induction cs with
  | nil => intro m s; left; rfl
  | cons c cs' ih =>
    intro m s
    unfold extractAcc
    by_cases h : s < scorer q c
    · rw [if_pos h]
      rcases ih c (scorer q c) with h' | h'
      · right; rw [h']; exact List.mem_cons_self _ _
      · right; exact List.mem_cons_of_mem _ h'
    · rw [if_neg h]
      rcases ih m s with h' | h'
      · left; exact h'
      · right; exact List.mem_cons_of_mem _ h'

theorem extractAcc_snd_ge (scorer : String → String → Nat) (q : String) :
    ∀ (cs : List String) (m : String) (s : Nat), s ≤ (extractAcc scorer q cs (m, s)).2 := by
  intro cs
  induction cs with
  | nil => intro m s; exact Nat.le_refl s
  | cons c cs' ih =>
    intro m s
    unfold extractAcc
    by_cases h : s < scorer q c
    · rw [if_pos h]
      exact Nat.le_trans (Nat.le_of_lt h) (ih c (scorer q c))
    · rw [if_neg h]
      exact ih m s

theorem extractAcc_snd_ge_all (scorer : String → String → Nat) (q : String) :
    ∀ (cs : List String) (m : String) (s : Nat),
      ∀ c ∈ cs, scorer q c ≤ (extractAcc scorer q cs (m, s)).2 := by
  intro cs
  induction cs with
  | nil => intro m s c hc; simp at hc
  | cons c0 cs' ih =>
    intro m s c hc
    unfold extractAcc
    by_cases h : s < scorer q c0
    · rw [if_pos h]
      rcases List.mem_cons.mp hc with rfl | hc'
      · exact extractAcc_snd_ge scorer q cs' c (scorer q c)
      · exact ih c0 (scorer q c0) c hc'
    · rw [if_neg h]
      rcases List.mem_cons.mp hc with rfl | hc'
      · exact Nat.le_trans (Nat.le_of_not_lt h) (extractAcc_snd_ge scorer q cs' m s)
      · exact ih m s c hc'

theorem extractAcc_snd_eq (scorer : String → String → Nat) (q : String) :
    ∀ (cs : List String) (m : String),
      (extractAcc scorer q cs (m, scorer q m)).2 =
        scorer q (extractAcc scorer q cs (m, scorer q m)).1 := by
  intro cs
  induction cs with
  | nil => intro m; rfl
  | cons c cs' ih =>
    intro m
    unfold extractAcc
    by_cases h : scorer q m < scorer q c
    · rw [if_pos h]
      exact ih c
    · rw [if_neg h]
      exact ih m

theorem extractOneScored_spec {scorer : String → String → Nat} {q : String}
    {cs : List String} {m : String} {s : Nat}
    (h : extractOneScored scorer q cs = some (m, s)) :
    m ∈ cs ∧ s = scorer q m ∧ ∀ c ∈ cs, scorer q c ≤ s := by
  cases cs with
  | nil => simp [extractOneScored] at h
  | cons c cs' =>
    unfold extractOneScored at h
    have hms : extractAcc scorer q cs' (c, scorer q c) = (m, s) := by
      simp only [Option.some.injEq] at h
      exact h
    refine ⟨?_, ?_, ?_⟩
    · rcases extractAcc_fst_mem scorer q cs' c (scorer q c) with h' | h'
      · rw [hms] at h'
        have hm : m = c := h'
        rw [hm]
        exact List.mem_cons_self _ _
      · rw [hms] at h'
        exact List.mem_cons_of_mem _ (h' : m ∈ cs')
    · have he := extractAcc_snd_eq scorer q cs' c
      rw [hms] at he
      exact he
    · intro c' hc'
      have hle : scorer q c' ≤ (extractAcc scorer q cs' (c, scorer q c)).2 := by
        rcases List.mem_cons.mp hc' with rfl | hc''
        · exact extractAcc_snd_ge scorer q cs' _ _
        · exact extractAcc_snd_ge_all scorer q cs' c (scorer q c) c' hc''
      rw [hms] at hle
      exact hle

/-- C3: for an uploaded row the Exact Matcher left unresolved (NaN "ein"
cell) with name q, the Fuzzy Fallback Matcher writes into its "ein" cell
the identifier of the first registry row bearing extractOne's winning
name exactly when the winning score — which is the maximum of the scorer
over the distinct registry names — is at least 85, and writes NaN
otherwise; rows that already carry an identifier are returned unchanged,
so no fuzzy result is ever accepted with a score below 85. -/
theorem fuzzy_match_threshold (scorer : String → String → Nat) (u : Frame)
    (org : String) (bmf : Frame) (bn : String) (out : Frame) (ei oi bni : Nat)
    (hei : colIdx u "ein" = some ei) (hoi : colIdx u org = some oi)
    (hbni : colIdx bmf bn = some bni)
    (h : fuzzy_match_unmatched scorer u org bmf bn = some out)
    (i : Nat) (r : List Cell) (hr : u.rows[i]? = some r)
    (hlen : u.cols.length ≤ r.length)
    (hnone : cellAt r ei = none)
    (q : String) (hq : cellAt r oi = some q)
    (mw : String) (sc : Nat)
    (hext : extractOneScored scorer q (bmfChoices bmf bni) = some (mw, sc)) :
    ((out.rows[i]?).map (fun r' => cellAt r' ei)) =
      some (if 85 ≤ sc then fuzzyWinnerEin bmf bni mw else none) ∧
    mw ∈ bmfChoices bmf bni ∧ sc = scorer q mw ∧
    (∀ c ∈ bmfChoices bmf bni, scorer q c ≤ sc) ∧
    (∀ (j : Nat) (s : List Cell), u.rows[j]? = some s → cellAt s ei ≠ none →
      out.rows[j]? = some s) := by
  unfold fuzzy_match_unmatched at h
  rw [hei, hoi, hbni] at h
  have h2 : (u.rows.mapM (fun (r : List Cell) =>
      if cellAt r ei = none then
        (get_best_ein scorer bmf bni ((cellAt r oi).getD "nan")).map
          (fun upd => setRowCols u.cols upd r)
      else some r)).bind
      (fun newRows => some (⟨u.cols, newRows⟩ : Frame)) = some out := h
  cases hrows : u.rows.mapM (fun (r : List Cell) =>
      if cellAt r ei = none then
        (get_best_ein scorer bmf bni ((cellAt r oi).getD "nan")).map
          (fun upd => setRowCols u.cols upd r)
      else some r) with
  | none => rw [hrows] at h2; simp at h2
  | some newRows =>
    rw [hrows] at h2
    have hout : out = ⟨u.cols, newRows⟩ := by
      have h' : (some (⟨u.cols, newRows⟩ : Frame) : Option Frame) = some out := h2
      simp only [Option.some.injEq] at h'
      exact h'.symm
    subst hout
    obtain ⟨hspec1, hspec2, hspec3⟩ := extractOneScored_spec hext
    refine ⟨?_, hspec1, hspec2, hspec3, ?_⟩
    · obtain ⟨r', hgr, hr'⟩ := mapM_option_getElem? _ u.rows newRows hrows i r hr
      rw [if_pos hnone, hq] at hgr
      simp only [Option.getD_some] at hgr
      unfold get_best_ein at hgr
      rw [hext] at hgr
      have hgr2 : Option.map (fun upd => setRowCols u.cols upd r)
          (if 85 ≤ sc then
            match bmf.rows.find? (fun row => cellAt row bni = some mw) with
            | some matchedRow =>
              some (bmfAttrCols.map (fun c => (c, seriesGet bmf matchedRow c)))
            | none => none
          else some (bmfAttrCols.map (fun c => (c, (none : Cell))))) = some r' := hgr
      show ((newRows[i]?).map (fun r' => cellAt r' ei)) = _
      by_cases hsc : 85 ≤ sc
      · rw [if_pos hsc] at hgr2 ⊢
        cases hfind : bmf.rows.find? (fun row => cellAt row bni = some mw) with
        | none => rw [hfind] at hgr2; simp at hgr2
        | some mr =>
          rw [hfind] at hgr2
          simp only [Option.map_some', Option.some.injEq] at hgr2
          subst hgr2
          rw [hr']
          simp only [Option.map_some']
          apply congrArg
          have hwin : fuzzyWinnerEin bmf bni mw = seriesGet bmf mr "ein" := by
            unfold fuzzyWinnerEin
            rw [hfind]
          rw [hwin]
          exact setRowCols_cellAt_found u.cols _ r ei "ein" _
            (idxOfCol_get hei) (Nat.lt_of_lt_of_le (idxOfCol_lt hei) hlen) rfl
      · rw [if_neg hsc] at hgr2 ⊢
        simp only [Option.map_some', Option.some.injEq] at hgr2
        subst hgr2
        rw [hr']
        simp only [Option.map_some']
        apply congrArg
        exact setRowCols_cellAt_found u.cols _ r ei "ein" _
          (idxOfCol_get hei) (Nat.lt_of_lt_of_le (idxOfCol_lt hei) hlen) rfl
    · intro j s hs hsome
      obtain ⟨s', hgs, hs'⟩ := mapM_option_getElem? _ u.rows newRows hrows j s hs
      rw [if_neg hsome] at hgs
      have : s' = s := by
        simp only [Option.some.injEq] at hgs
        exact hgs.symm
      subst this
      exact hs'

/-- Witness for C3 on the concrete unresolved record "red cross". -/
theorem fuzzy_match_threshold_witness :
    colIdx exC3upload "ein" = some 1 ∧
    colIdx exC3upload "org" = some 0 ∧
    colIdx exC3bmf "name" = some 0 ∧
    fuzzy_match_unmatched exScorer exC3upload "org" exC3bmf "name" = some exC3out ∧
    exC3upload.rows[0]? = some [some "red cross", none, none, none, none, none] ∧
    extractOneScored exScorer "red cross" (bmfChoices exC3bmf 0) = some ("red cross", 100) ∧
    ((exC3out.rows[0]?).map (fun r' => cellAt r' 1)) =
      some (if 85 ≤ 100 then fuzzyWinnerEin exC3bmf 0 "red cross" else none) :=
  ⟨rfl, rfl, rfl, rfl, by simp [exC3upload], rfl,
    (fuzzy_match_threshold exScorer exC3upload "org" exC3bmf "name" exC3out 1 0 0
      rfl rfl rfl rfl 0 [some "red cross", none, none, none, none, none]
      (by simp [exC3upload]) (by decide) rfl "red cross" rfl "red cross" 100 rfl).1⟩

theorem idxOfCol_of_mem {c : String} : ∀ {l : List String}, c ∈ l →
    ∃ i, idxOfCol c l = some i := by
  intro l
  induction l with
  | nil => intro h; simp at h
  | cons d t ih =>
    intro h
    unfold idxOfCol
    by_cases hd : d = c
    · exact ⟨0, by rw [if_pos hd]⟩
    · rw [if_neg hd]
      have hct : c ∈ t := by
        rcases List.mem_cons.mp h with rfl | h'
        · exact absurd rfl hd
        · exact h'
      obtain ⟨i, hi⟩ := ih hct
      exact ⟨i + 1, by rw [hi]; rfl⟩

theorem extractOneScored_none_iff {scorer : String → String → Nat} {q : String}
    {cs : List String} : extractOneScored scorer q cs = none ↔ cs = [] := by
  cases cs <;> simp [extractOneScored]

/-- C9: the Field Detector returns None exactly on the empty column set;
on a non-empty set it always returns one of the columns; and when no
keyword scores 60 or more against any normalized column name, it falls
back to the first column in input order. -/
theorem find_best_column_match_spec (scorer : String → String → Nat)
    (columns : List String) :
    (find_best_column_match scorer columns = none ↔ columns = []) ∧
    (∀ c, find_best_column_match scorer columns = some c → c ∈ columns) ∧
    ((∀ kw ∈ detectKeywords, ∀ col ∈ columns, scorer kw (normalizeName col) < 60) →
      find_best_column_match scorer columns = columns.head?) := by
  cases columns with
  | nil =>
    refine ⟨by simp [find_best_column_match], ?_, ?_⟩
    · intro c hc
      simp [find_best_column_match] at hc
    · intro _
      rfl
  | cons c0 rest =>
    have hfb : ∀ res, detectKeywords.findSome?
        (keywordHit scorer (c0 :: rest) ((c0 :: rest).map normalizeName)) = res →
        find_best_column_match scorer (c0 :: rest) =
          (match res with
          | some c => some c
          | none => (c0 :: rest).head?) := by
      intro res hres
      unfold find_best_column_match
      rw [if_neg (by simp)]
      show (match List.findSome? (keywordHit scorer (c0 :: rest)
          (List.map normalizeName (c0 :: rest))) detectKeywords with
        | some c => some c
        | none => (c0 :: rest).head?) = _
      rw [hres]
    cases hfs : detectKeywords.findSome?
        (keywordHit scorer (c0 :: rest) ((c0 :: rest).map normalizeName)) with
    | none =>
      have hres := hfb none hfs
      refine ⟨?_, ?_, ?_⟩
      · rw [hres]
        simp
      · intro c hc
        rw [hres] at hc
        simp only [List.head?_cons, Option.some.injEq] at hc
        rw [← hc]
        exact List.mem_cons_self _ _
      · intro _
        exact hres
    | some c =>
      have hres := hfb (some c) hfs
      obtain ⟨kw, hkw, hhit⟩ := List.exists_of_findSome?_eq_some hfs
      unfold keywordHit at hhit
      cases hext : extractOneScored scorer kw ((c0 :: rest).map normalizeName) with
      | none => rw [hext] at hhit; simp at hhit
      | some p =>
        obtain ⟨mname, score⟩ := p
        rw [hext] at hhit
        have hhit2 : (if 60 ≤ score then
            some (((c0 :: rest)[(idxOfCol mname
              ((c0 :: rest).map normalizeName)).getD 0]?).getD "")
          else none) = some c := hhit
        by_cases hsc : 60 ≤ score
        · rw [if_pos hsc] at hhit2
          have hc : c = ((c0 :: rest)[(idxOfCol mname
              ((c0 :: rest).map normalizeName)).getD 0]?).getD "" := by
            simp only [Option.some.injEq] at hhit2
            exact hhit2.symm
          obtain ⟨hm, hseq, -⟩ := extractOneScored_spec hext
          obtain ⟨imo, himo⟩ := idxOfCol_of_mem hm
          have hlt : imo < ((c0 :: rest).map normalizeName).length := idxOfCol_lt himo
          rw [List.length_map] at hlt
          have hcmem : c ∈ c0 :: rest := by
            rw [hc, himo]
            simp only [Option.getD_some]
            cases hg : ((c0 :: rest)[imo]?) with
            | none =>
              rw [List.getElem?_eq_none_iff] at hg
              exact absurd hlt (Nat.not_lt.mpr hg)
            | some v =>
              simp only [Option.getD_some]
              exact List.getElem?_mem hg
          refine ⟨?_, ?_, ?_⟩
          · rw [hres]
            simp
          · intro c' hc'
            rw [hres] at hc'
            simp only [Option.some.injEq] at hc'
            rw [← hc']
            exact hcmem
          · intro hlow
            exfalso
            obtain ⟨col, hcolmem, hcoleq⟩ := List.mem_map.mp hm
            have hlt60 : scorer kw (normalizeName col) < 60 := hlow kw hkw col hcolmem
            rw [hcoleq, ← hseq] at hlt60
            exact Nat.lt_irrefl _ (Nat.lt_of_lt_of_le hlt60 hsc)
        · rw [if_neg hsc] at hhit2
          simp at hhit2

/-- Witness for C9: a scorer below every threshold forces the fallback to
the first column. -/
theorem find_best_column_match_spec_witness :
    (∀ kw ∈ detectKeywords, ∀ col ∈ ["org", "xyz"], exScorerLow kw (normalizeName col) < 60) ∧
    find_best_column_match exScorerLow ["org", "xyz"] = (["org", "xyz"] : List String).head? :=
  ⟨by decide, (find_best_column_match_spec exScorerLow ["org", "xyz"]).2.2 (by decide)⟩
